import Mathlib

/-!
# CrisisMap AI — verification of the retrieval-augmented response pipeline

This development shallowly embeds the core of the CrisisMap AI repository
(`crisismap_ai/models/llm_response.py`, `crisismap_ai/api/app.py`,
`crisismap_ai/database/db_operations.py`) in Lean 4 and proves / refutes the
specification claims about it.

Text is modelled as `List Char`.  Python string primitives (`split`,
`strip`, `rsplit`, `in`, `startswith`, `str.split()`, the regexes used by
`_format_response_text`, and `re.sub` word-boundary substitution) are
implemented as executable structural recursions mirroring CPython semantics
on the ASCII fragment: `\s` is modelled as the six ASCII whitespace
characters, `[a-z]`, `[A-Za-z]` as the ASCII ranges, and `str.lower` /
`str.upper` on single characters as the ASCII case maps (the code only ever
uppercases characters guarded to be ASCII lowercase or whitespace, where the
ASCII maps agree with CPython).

External collaborators (web scraper, embedding model, Mongo collection,
LLM generation, summarizer) are modelled as record fields of `Except`-valued
results: `.error` is a Python exception raised by the collaborator, `.ok`
a normal return.  `try/except` blocks of the source become `match`es on
those fields.
-/

/-! ## Character primitives (ASCII model of the Python character classes) -/

/-- ASCII model of the regex class `\s` (and of Python `str.strip`
whitespace): tab, newline, vertical tab, form feed, carriage return, space. -/
def pySpace (c : Char) : Bool :=
  c.toNat = 32 ∨ (9 ≤ c.toNat ∧ c.toNat ≤ 13)

/-- The sentence-terminator class `[.!?]` of `_format_response_text`. -/
def termChar (c : Char) : Bool :=
  c = '.' ∨ c = '!' ∨ c = '?'

/-- ASCII `[a-z]` (the class used by `re.match(r'^[a-z]', ...)`). -/
def lowerAscii (c : Char) : Bool :=
  97 ≤ c.toNat ∧ c.toNat ≤ 122

/-- ASCII `[A-Za-z]` (the class used in the word-boundary lookarounds). -/
def letterAscii (c : Char) : Bool :=
  (65 ≤ c.toNat ∧ c.toNat ≤ 90) ∨ (97 ≤ c.toNat ∧ c.toNat ≤ 122)

/-- ASCII alphanumeric: the characters counted as word-token constituents. -/
def alnumChar (c : Char) : Bool :=
  (48 ≤ c.toNat ∧ c.toNat ≤ 57) ∨ (65 ≤ c.toNat ∧ c.toNat ≤ 90) ∨
    (97 ≤ c.toNat ∧ c.toNat ≤ 122)

/-- Case-insensitive key of a character: ASCII uppercase letters are folded
onto their lowercase code points, every other character is its code point. -/
def caseKey (c : Char) : Nat :=
  if 65 ≤ c.toNat ∧ c.toNat ≤ 90 then c.toNat + 32 else c.toNat

/-- ASCII model of Python `str.upper` on a single character. -/
def pyUpperChar (c : Char) : Char :=
  if 97 ≤ c.toNat ∧ c.toNat ≤ 122 then Char.ofNat (c.toNat - 32) else c

/-- ASCII model of Python `str.lower` on a single character. -/
def pyLowerChar (c : Char) : Char :=
  if 65 ≤ c.toNat ∧ c.toNat ≤ 90 then Char.ofNat (c.toNat + 32) else c

/-- Convert a string literal to the `List Char` representation used
throughout this development. -/
def strL (s : String) : List Char := s.data

/-! ### Facts about the character primitives -/

theorem char_ofNat_toNat_small {n : Nat} (h : n < 128) :
    (Char.ofNat n).toNat = n := by
  unfold Char.ofNat
  split
  · rfl
  · rename_i hh
    exfalso
    exact hh (Or.inl (by omega))

theorem caseKey_pyUpperChar (c : Char) : caseKey (pyUpperChar c) = caseKey c := by
  unfold caseKey pyUpperChar
  by_cases h : 97 ≤ c.toNat ∧ c.toNat ≤ 122
  · rw [if_pos h]
    have hv : (Char.ofNat (c.toNat - 32)).toNat = c.toNat - 32 :=
      char_ofNat_toNat_small (by omega)
    rw [hv]
    rw [if_pos (by omega : 65 ≤ c.toNat - 32 ∧ c.toNat - 32 ≤ 90),
      if_neg (by omega : ¬(65 ≤ c.toNat ∧ c.toNat ≤ 90))]
    omega
  · rw [if_neg h]

theorem alnumChar_pyUpperChar (c : Char) :
    alnumChar (pyUpperChar c) = alnumChar c := by
  unfold alnumChar pyUpperChar
  by_cases h : 97 ≤ c.toNat ∧ c.toNat ≤ 122
  · rw [if_pos h]
    have hv : (Char.ofNat (c.toNat - 32)).toNat = c.toNat - 32 :=
      char_ofNat_toNat_small (by omega)
    simp only [hv]
    simp only [decide_eq_decide]
    omega
  · rw [if_neg h]

theorem pySpace_pyUpperChar (c : Char) : pySpace (pyUpperChar c) = pySpace c := by
  unfold pySpace pyUpperChar
  by_cases h : 97 ≤ c.toNat ∧ c.toNat ≤ 122
  · rw [if_pos h]
    have hv : (Char.ofNat (c.toNat - 32)).toNat = c.toNat - 32 :=
      char_ofNat_toNat_small (by omega)
    simp only [hv]
    simp only [decide_eq_decide]
    omega
  · rw [if_neg h]

theorem not_alnum_of_pySpace {c : Char} (h : pySpace c = true) :
    alnumChar c = false := by
  unfold pySpace at h
  unfold alnumChar
  simp only [decide_eq_true_eq] at h
  simp only [decide_eq_false_iff_not]
  omega

/-! ## Python string primitives over `List Char` -/

/-- `l.dropWhile` of leading whitespace: the left half of Python `strip`. -/
def stripL (l : List Char) : List Char := l.dropWhile (fun c => pySpace c)

/-- Python `str.strip()`: drop leading and trailing whitespace. -/
def pyStrip (l : List Char) : List Char :=
  ((stripL l).reverse.dropWhile (fun c => pySpace c)).reverse

/-- Split at the first occurrence of `sep` (Python `str.split(sep, 1)` when
it finds a separator): returns the part before and the part after. -/
def splitFirst (sep : List Char) : List Char → Option (List Char × List Char)
  | [] => if sep.isPrefixOf ([] : List Char) then some ([], []) else none
  | c :: cs =>
    if sep.isPrefixOf (c :: cs) then some ([], (c :: cs).drop sep.length)
    else match splitFirst sep cs with
      | some (a, b) => some (c :: a, b)
      | none => none

/-- Python `sub in s` (substring containment). -/
def pyContains (sep l : List Char) : Bool := (splitFirst sep l).isSome

/-- Auxiliary scanner for `splitChar`. -/
def splitCharGo (sep : Char) (cur : List Char) : List Char → List (List Char)
  | [] => [cur.reverse]
  | c :: rest =>
    if c = sep then cur.reverse :: splitCharGo sep [] rest
    else splitCharGo sep (c :: cur) rest

/-- Python `str.split(sep)` for a one-character separator. -/
def splitChar (sep : Char) (l : List Char) : List (List Char) :=
  splitCharGo sep [] l

/-- Auxiliary scanner for `splitNN`. -/
def splitNNGo (cur : List Char) : List Char → List (List Char)
  | [] => [cur.reverse]
  | [c] => [(c :: cur).reverse]
  | c :: d :: rest =>
    if c = '\n' ∧ d = '\n' then cur.reverse :: splitNNGo [] rest
    else splitNNGo (c :: cur) (d :: rest)

/-- Python `str.split("\n\n")` (leftmost, non-overlapping). -/
def splitNN (l : List Char) : List (List Char) := splitNNGo [] l

/-- Python `sep.join(parts)`. -/
def joinWith (sep : List Char) : List (List Char) → List Char
  | [] => []
  | [x] => x
  | x :: y :: rest => x ++ sep ++ joinWith sep (y :: rest)

/-- Split at the last occurrence of `(`: Python `s.rsplit("(", 1)` restricted
to the open parenthesis, as used by the `/crisis/query` source parser.
Returns `none` when no `(` occurs. -/
def rsplitParen : List Char → Option (List Char × List Char)
  | [] => none
  | c :: cs =>
    match rsplitParen cs with
    | some (a, b) => some (c :: a, b)
    | none => if c = '(' then some ([], cs) else none

/-- Auxiliary scanner for `pyWords`. -/
def pyWordsGo (cur : List Char) : List Char → List (List Char)
  | [] => if cur = [] then [] else [cur.reverse]
  | c :: rest =>
    if pySpace c then
      (if cur = [] then [] else [cur.reverse]) ++ pyWordsGo [] rest
    else pyWordsGo (c :: cur) rest

/-- Python `str.split()` with no argument: maximal runs of non-whitespace. -/
def pyWords (l : List Char) : List (List Char) := pyWordsGo [] l

/-! ### Basic lemmas about the string primitives -/

theorem splitFirst_eq_some {sep l a b : List Char}
    (h : splitFirst sep l = some (a, b)) : l = a ++ sep ++ b := by
  induction l generalizing a with
  | nil =>
    unfold splitFirst at h
    by_cases hp : sep.isPrefixOf ([] : List Char)
    · rw [if_pos hp] at h
      cases sep with
      | nil => simp at h; simp [h.1, h.2]
      | cons s ss => simp [List.isPrefixOf] at hp
    · rw [if_neg hp] at h
      exact absurd h (by simp)
  | cons c cs ih =>
    unfold splitFirst at h
    by_cases hp : sep.isPrefixOf (c :: cs)
    · rw [if_pos hp] at h
      simp only [Option.some.injEq, Prod.mk.injEq] at h
      obtain ⟨ha, hb⟩ := h
      subst ha
      subst hb
      have hpre : sep <+: c :: cs := List.isPrefixOf_iff_prefix.1 hp
      obtain ⟨t, ht⟩ := hpre
      rw [List.nil_append, ← ht, List.drop_left]
    · rw [if_neg hp] at h
      cases hsp : splitFirst sep cs with
      | none => rw [hsp] at h; exact absurd h (by simp)
      | some p =>
        obtain ⟨a', b'⟩ := p
        rw [hsp] at h
        simp only [Option.some.injEq, Prod.mk.injEq] at h
        obtain ⟨ha, hb⟩ := h
        subst hb
        have := ih hsp
        rw [← ha]
        simp [this]

/-! ## The sentence splitter `re.split(r'([.!?][\s\n]+)', s)`

CPython splits at each leftmost, non-overlapping match of one terminator
character followed by a maximal non-empty run of whitespace, and — because
the pattern is parenthesised — keeps the matched separators in the result,
so the result alternates content parts and separator parts. -/

/-- Is the head of the list a whitespace character? -/
def headSpace : List Char → Bool
  | [] => false
  | c :: _ => pySpace c

/-- Scanner producing the alternating `re.split(r'([.!?][\s\n]+)', ·)` parts.
`inSep = true` means the characters accumulated in `cur` (reversed) belong to
a separator match still being extended. -/
def ssGo : Bool → List Char → List Char → List (List Char)
  | false, cur, [] => [cur.reverse]
  | true, cur, [] => [cur.reverse, []]
  | false, cur, c :: rest =>
    if termChar c ∧ headSpace rest then cur.reverse :: ssGo true [c] rest
    else ssGo false (c :: cur) rest
  | true, cur, c :: rest =>
    if pySpace c then ssGo true (c :: cur) rest
    else if termChar c ∧ headSpace rest then
      cur.reverse :: [] :: ssGo true [c] rest
    else cur.reverse :: ssGo false [c] rest

/-- `re.split(r'([.!?][\s\n]+)', l)` (also `re.split(r'([.!?][\s]+)', l)`:
the two patterns are the same class since `\n ∈ \s`). -/
def splitSents (l : List Char) : List (List Char) := ssGo false [] l

/-- `re.match(r'[.!?][\s\n]+', s)` succeeds iff `s` starts with a terminator
character followed by at least one whitespace character. -/
def sepStart : List Char → Bool
  | p :: w :: _ => termChar p ∧ pySpace w
  | _ => false

/-! ## `re.sub(r'\s*\n\s*', ' ', s)`

Each maximal whitespace run containing a newline is replaced by a single
space; all other characters (and all-space runs without a newline) pass
through unchanged. -/

/-- Emit a pending whitespace run (accumulated reversed in `runRev`). -/
def flushRun (runRev : List Char) : List Char :=
  if runRev.contains '\n' then [' '] else runRev.reverse

/-- Scanner for `collapseNl`; `runRev` holds the current whitespace run. -/
def collapseGo (runRev : List Char) : List Char → List Char
  | [] => flushRun runRev
  | c :: rest =>
    if pySpace c then collapseGo (c :: runRev) rest
    else flushRun runRev ++ c :: collapseGo [] rest

/-- `re.sub(r'\s*\n\s*', ' ', l)`. -/
def collapseNl (l : List Char) : List Char := collapseGo [] l

/-! ## `re.sub` with the word-boundary proper-noun patterns

`re.sub(r'(?<![A-Za-z])word(?![A-Za-z])', repl, s)` (and the possessive
variant without the lookahead) scans left to right; after a replacement the
scan resumes after the matched word.  `prevL` tracks whether the character
before the current position is an ASCII letter (the lookbehind). -/

/-- Does the list start with an ASCII letter? -/
def headLetter : List Char → Bool
  | [] => false
  | c :: _ => letterAscii c

/-- One fuel-indexed scanning step of `re.sub` for a literal word `w` with
replacement `r`; `both = true` also requires the `(?![A-Za-z])` lookahead.
The fuel is an upper bound on the number of scanning steps (each step
consumes at least one character when `w ≠ []`); callers pass the length of
the text, which suffices. -/
def subWordGo (w r : List Char) (both : Bool) : Nat → Bool → List Char → List Char
  | 0, _, l => l
  | _ + 1, _, [] => []
  | fuel + 1, prevL, c :: cs =>
    if w.isPrefixOf (c :: cs) ∧ prevL = false ∧
        (both = true → headLetter ((c :: cs).drop w.length) = false) then
      r ++ subWordGo w r both fuel
        (match w.getLast? with | some d => letterAscii d | none => prevL)
        ((c :: cs).drop w.length)
    else c :: subWordGo w r both fuel (letterAscii c) cs

/-- `re.sub(r'(?<![A-Za-z])' + w + r'(?![A-Za-z])', r, l)`. -/
def subWordB (w r l : List Char) : List Char :=
  subWordGo w r true l.length false l

/-- `re.sub(r'(?<![A-Za-z])' + w, r, l)` (the possessive pass has no
trailing lookahead). -/
def subWordP (w r l : List Char) : List Char :=
  subWordGo w r false l.length false l

/-! ## The normalizer `_format_response_text` -/

/-- Uppercase the first character of a list (`s[0].upper() + s[1:]`). -/
def upFirst : List Char → List Char
  | [] => []
  | c :: cs => pyUpperChar c :: cs

/-- Does the list start with `'` or `"`?  (`strip().startswith(("'", '"'))`). -/
def quoteStart : List Char → Bool
  | [] => false
  | c :: _ => c = Char.ofNat 39 ∨ c = Char.ofNat 34

/-- Does the list start with an ASCII lowercase letter
(`re.match(r'^[a-z]', s)`)? -/
def headLower : List Char → Bool
  | [] => false
  | c :: _ => lowerAscii c

/-- First-pass capitalization of a joined sentence+separator
(`llm_response.py` lines 492–496). -/
def capSent1 (s : List Char) : List Char :=
  if s ≠ [] ∧ quoteStart (pyStrip s) = false ∧ (pyStrip s).length > 0 then
    (if headLower (pyStrip s) then upFirst s else s)
  else s

/-- First-pass capitalization of a standalone part
(`llm_response.py` lines 501–504). -/
def capAlone1 (s : List Char) : List Char :=
  if headLower (pyStrip s) then upFirst s else s

/-- The first re-joining loop of `_format_response_text`
(`llm_response.py` lines 487–506). -/
def joinLoop1 : List (List Char) → List (List Char)
  | s0 :: s1 :: rest =>
    if sepStart s1 then capSent1 (s0 ++ s1) :: joinLoop1 rest
    else if pyStrip s0 ≠ [] then capAlone1 s0 :: joinLoop1 (s1 :: rest)
    else joinLoop1 (s1 :: rest)
  | [s0] => if pyStrip s0 ≠ [] then [capAlone1 s0] else []
  | [] => []

/-- Second-pass capitalization of a joined sentence (only applied at index 0;
`llm_response.py` lines 531–535). -/
def capSent2 (s : List Char) : List Char :=
  if s ≠ [] ∧ s.length > 0 then (if headLower s then upFirst s else s) else s

/-- Second-pass capitalization of a standalone part (only at index 0;
`llm_response.py` lines 541–543). -/
def capAlone2 (s : List Char) : List Char :=
  if headLower s then upFirst s else s

/-- The per-paragraph re-joining loop of `_format_response_text`
(`llm_response.py` lines 525–545); `first` tracks `i == 0`. -/
def joinLoop2 (first : Bool) : List (List Char) → List (List Char)
  | s0 :: s1 :: rest =>
    if sepStart s1 then
      (if first then capSent2 (s0 ++ s1) else s0 ++ s1) :: joinLoop2 false rest
    else if pyStrip s0 ≠ [] then
      (if first then capAlone2 s0 else s0) :: joinLoop2 false (s1 :: rest)
    else joinLoop2 false (s1 :: rest)
  | [s0] => if pyStrip s0 ≠ [] then [if first then capAlone2 s0 else s0] else []
  | [] => []

/-- Paragraph processing of `_format_response_text`
(`llm_response.py` lines 516–552), applied to paragraphs with non-empty
strip. -/
def procPara (p : List Char) : List Char :=
  let clean := collapseNl (pyStrip p)
  let joined := List.flatten (joinLoop2 true (splitSents clean))
  if headLower joined then upFirst joined else joined

/-- The gazetteer of the word-boundary pass (`llm_response.py` lines
559–563), with the literal `proper_noun.capitalize()` replacements. -/
def gazetteerB : List (List Char × List Char) :=
  [(strL "israel", strL "Israel"), (strL "iran", strL "Iran"),
   (strL "israeli", strL "Israeli"), (strL "iranian", strL "Iranian"),
   (strL "monday", strL "Monday"), (strL "tuesday", strL "Tuesday"),
   (strL "wednesday", strL "Wednesday"), (strL "thursday", strL "Thursday"),
   (strL "friday", strL "Friday"), (strL "saturday", strL "Saturday"),
   (strL "sunday", strL "Sunday")]

/-- The possessive pass gazetteer (`llm_response.py` lines 566–569). -/
def gazetteerP : List (List Char × List Char) :=
  [(strL "israel's", strL "Israel's"), (strL "iran's", strL "Iran's"),
   (strL "israeli's", strL "Israeli's"), (strL "iranian's", strL "Iranian's")]

/-- Both proper-noun substitution passes (`llm_response.py` lines 557–569). -/
def properPasses (t : List Char) : List Char :=
  gazetteerP.foldl (fun acc wr => subWordP wr.1 wr.2 acc)
    (gazetteerB.foldl (fun acc wr => subWordB wr.1 wr.2 acc) t)

/-- The literal citation-block marker `"\n\n**Sources:**\n"`. -/
def srcMarkerNl : List Char := strL "\n\n**Sources:**\n"

/-- The literal marker `"**Sources:**"` (the split key of `/crisis/query`). -/
def srcMarker : List Char := strL "**Sources:**"

/-- The header peel of `_format_response_text` (`llm_response.py` lines
460–469): returns `(header, content)`. -/
def headerSplit (text : List Char) : List Char × List Char :=
  if (strL "**").isPrefixOf text ∧ pyContains (strL "\n\n") text then
    match splitFirst (strL "\n\n") text with
    | some (a, b) => (a ++ strL "\n\n", b)
    | none => ([], text)
  else ([], text)

/-- The citation-block peel of `_format_response_text` (`llm_response.py`
lines 474–479): returns `(processed, sourcesSection)`. -/
def sourceSplit (content : List Char) : List Char × List Char :=
  if pyContains srcMarkerNl content then
    match splitFirst srcMarkerNl content with
    | some (a, b) => (a, srcMarkerNl ++ b)
    | none => (content, [])
  else (content, [])

/-- The body transformation of `_format_response_text` (`llm_response.py`
lines 481–569): the sentence pass, the paragraph pass and the proper-noun
passes. -/
def normalizeBody (processed : List Char) : List Char :=
  let joined1 := List.flatten (joinLoop1 (splitSents processed))
  let paragraphs := splitNN joined1
  let formattedParagraphs :=
    paragraphs.filterMap (fun p => if pyStrip p ≠ [] then some (procPara p) else none)
  properPasses (joinWith (strL "\n\n") formattedParagraphs)

/-- `LLMResponseGenerator._format_response_text` (`llm_response.py` lines
455–574), the Text Normalizer. -/
def formatResponseText (text : List Char) : List Char :=
  if text = [] then text
  else
    let hc := headerSplit text
    let sc := sourceSplit hc.2
    hc.1 ++ normalizeBody sc.1 ++ sc.2

/-! ## Evidence items and the Response Composer (`llm_response.py`)

Python dicts are modelled as structures of `Option (List Char)` fields:
`none` is an absent key, `some []` a present-but-falsy (empty) value, so
`"k" in d` is `·.isSome` and `d["k"]` truthiness is `optFull`.  The model
carries the fields the composer reads; pass-through keys the composer never
looks at (`event_type`, `country`, `casualties`, `impacts`, nested `data`)
are omitted. -/

/-- A web evidence item (shape of `web_scraper.search_disaster_info` results). -/
structure WebItem where
  title : Option (List Char)
  source : Option (List Char)
  url : Option (List Char)
  content : Option (List Char)
deriving DecidableEq

/-- A database evidence item (shape of `search_by_vector` result documents). -/
structure DbItem where
  title : Option (List Char)
  summary : Option (List Char)
  text : Option (List Char)
  location : Option (List Char)
  category : Option (List Char)
  date : Option (List Char)
deriving DecidableEq

/-- `"k" in d and d["k"]`: key present with a truthy (non-empty) value. -/
def optFull : Option (List Char) → Bool
  | some v => v ≠ []
  | none => false

/-- One step of the web-content accumulation loop
(`llm_response.py` lines 153–155). -/
def webContentStep (acc : List Char) (d : WebItem) : List Char :=
  if optFull d.content then acc ++ d.content.getD [] ++ strL " \n\n" else acc

/-- One step of the database-content accumulation (`text` else `summary`,
`llm_response.py` lines 163–166 and 316–320). -/
def dbContentStep (acc : List Char) (e : DbItem) : List Char :=
  if optFull e.text then acc ++ e.text.getD [] ++ strL " \n\n"
  else if optFull e.summary then acc ++ e.summary.getD [] ++ strL " \n\n"
  else acc

/-- One step of the web citation-line accumulation
(`llm_response.py` lines 157–158). -/
def webSourceStep (acc : List (List Char)) (d : WebItem) : List (List Char) :=
  if d.title.isSome ∧ d.source.isSome then
    acc ++ [strL "- " ++ d.title.getD (strL "Unknown") ++ strL " (" ++
      d.source.getD (strL "Web") ++ strL ")"]
  else acc

/-- One step of the database citation-line accumulation
(`llm_response.py` lines 168–169): no parenthesised source is emitted. -/
def dbSourceStep (acc : List (List Char)) (e : DbItem) : List (List Char) :=
  if e.title.isSome then
    acc ++ [strL "- " ++ e.title.getD (strL "Database record")]
  else acc

/-- The generation context assembled by `_generate_web_based_response`
(`llm_response.py` lines 148–166): all web contents, then the contents of at
most the first three database items. -/
def buildAllContent (web : List WebItem) (db : List DbItem) : List Char :=
  let base := web.foldl webContentStep []
  if db ≠ [] then (db.take 3).foldl dbContentStep base else base

/-- The citation-line list assembled by `_generate_web_based_response`
(`llm_response.py` lines 150–169). -/
def buildSources (web : List WebItem) (db : List DbItem) : List (List Char) :=
  let base := web.foldl webSourceStep []
  if db ≠ [] then (db.take 3).foldl dbSourceStep base else base

/-- Appending the citation block (`llm_response.py` lines 214–216 and
233–235): the marker line plus one `"- ..."` line per citation. -/
def attachSources (body : List Char) (sources : List (List Char)) : List Char :=
  if sources ≠ [] then body ++ srcMarkerNl ++ joinWith (strL "\n") sources
  else body

/-- The web-path generation prompt (`llm_response.py` lines 178–186). -/
def webPrompt (q allContent : List Char) : List Char :=
  strL "\nI need information about: " ++ q ++
  strL "\n\nPlease provide a clear, comprehensive answer based only on the following information:\n\n"
  ++ allContent ++
  strL "\n\nSummarize the most important points and focus specifically on answering the query. Make your response well-structured, factual, and concise. Use proper capitalization for sentences and ensure the text is professionally formatted.\n"

/-- The database-path generation prompt (`llm_response.py` lines 271–279). -/
def dbPrompt (q ctx : List Char) : List Char :=
  strL "\nI need information about: " ++ q ++
  strL "\n\nBased on the following crisis data, please provide a helpful, accurate, and concise answer:\n\n"
  ++ ctx ++
  strL "\n\nMake your response well-structured, factual, and directly focused on answering the query. Ensure proper capitalization and formatting for a professional presentation.\n"

/-- The `"**Information about {q}**\n\n"` fallback header. -/
def infoHeader (q : List Char) : List Char :=
  strL "**Information about " ++ q ++ strL "**\n\n"

/-- The Mongo collection, aggregation pipeline and the LLM / summarizer /
scraper / embedding collaborators of one request, with `.error` denoting a
raised exception.  `scrapeK` is `search_disaster_info(query, max_results=k)`
as a function of `k`; `agg` is the `$search` aggregation as a function of
the query vector; `findRaises` tells whether `collection.find()` raises. -/
structure DbState where
  availB : Bool
  agg : List Int → Except Unit (List DbItem)
  findRaises : Bool
  allDocs : List DbItem

/-- All collaborators reachable from one query. -/
structure Collab where
  scrapeK : Nat → Except Unit (List WebItem)
  embedQ : Except Unit (List Int)
  db : DbState
  connectRaises : Bool
  modelLoadOk : Bool
  genFn : List Char → Except Unit (List Char)
  sumLoadOk : Bool
  sumFn : List Char → Except Unit (List Char)

/-! ### `db_operations.py`: `search_by_vector` and `search_by_text` -/

/-- `VECTOR_DIMENSION` from `config.py`. -/
def vecDim : Nat := 384

/-- The query-vector resizing of `search_by_vector`
(`db_operations.py` lines 247–255). -/
def resizeVec (v : List Int) : List Int :=
  if v.length = vecDim then v
  else if v.length > vecDim then v.take vecDim
  else v ++ List.replicate (vecDim - v.length) 0

/-- Mongo `collection.find().limit(n)`: `limit(0)` imposes no limit
(Mongo semantics), otherwise the first `n` documents in natural order. -/
def mongoFindLimit (docs : List DbItem) (n : Nat) : List DbItem :=
  if n = 0 then docs else docs.take n

/-- The `collection.find().limit(limit)` collaborator call. -/
def mongoFind (s : DbState) (n : Nat) : Except Unit (List DbItem) :=
  if s.findRaises then .error () else .ok (mongoFindLimit s.allDocs n)

/-- `CrisisEventOperations.search_by_vector` (`db_operations.py` lines
231–304).  The aggregation result empty or raising falls back to
`find().limit(limit)`; a raising fallback is caught by the outer handler and
yields `[]` (the inner handler retries the same deterministic `find`, so the
double call collapses).  The `_id`-stringification loop is the identity in
this model. -/
def searchByVector (s : DbState) (v : List Int) (limit : Nat) : List DbItem :=
  if s.availB = false then []
  else
    let step : Except Unit (List DbItem) :=
      match s.agg (resizeVec v) with
      | .ok rs => if rs = [] then mongoFind s limit else .ok rs
      | .error _ => mongoFind s limit
    match step with
    | .ok rs => rs
    | .error _ => []

/-- `CrisisEventOperations.search_by_text` (`db_operations.py` lines
306–331): embeds the query and delegates to `search_by_vector`; an embedding
exception is caught and yields `[]`. -/
def searchByText (s : DbState) (embedRes : Except Unit (List Int))
    (limit : Nat) : List DbItem :=
  if s.availB = false then []
  else match embedRes with
    | .error _ => []
    | .ok v => searchByVector s v limit

/-! ### The generation paths of `LLMResponseGenerator` -/

/-- Decimal rendering of a counter for the `Event {i}` lines. -/
def natStr (n : Nat) : List Char := (toString n).data

/-- One formatted context item of `_format_context` (`llm_response.py`
lines 374–424), restricted to the modelled fields. -/
def formatContextItem (i : Nat) (e : DbItem) : List Char :=
  (strL "Event " ++ natStr i ++ strL ":\n")
  ++ (if optFull e.title then strL "Title: " ++ e.title.getD [] ++ strL "\n" else [])
  ++ (if optFull e.category then strL "Type: " ++ e.category.getD [] ++ strL "\n" else [])
  ++ (if optFull e.location then strL "Location: " ++ e.location.getD [] ++ strL "\n" else [])
  ++ (if optFull e.date then strL "Date: " ++ e.date.getD [] ++ strL "\n" else [])
  ++ (if optFull e.summary then strL "Summary: " ++ e.summary.getD [] ++ strL "\n"
      else if optFull e.text then strL "Information: " ++ e.text.getD [] ++ strL "\n"
      else [])

/-- Enumerated mapping starting at 1 (`enumerate(context_data, 1)`). -/
def enumMap (f : Nat → DbItem → List Char) : Nat → List DbItem → List (List Char)
  | _, [] => []
  | i, e :: rest => f i e :: enumMap f (i + 1) rest

/-- `_format_context` (`llm_response.py` lines 374–424). -/
def formatContext (ctx : List DbItem) : List Char :=
  joinWith (strL "\n") (enumMap formatContextItem 1 ctx)

/-- One item of the structured no-model response (`llm_response.py` lines
334–352). -/
def dbStructItem (i : Nat) (e : DbItem) : List Char :=
  strL "**Event " ++ natStr i ++ strL ": " ++ e.title.getD (strL "Unnamed event")
    ++ strL "**\n"
  ++ (if optFull e.date then strL "Date: " ++ e.date.getD [] ++ strL "\n" else [])
  ++ (if optFull e.location then strL "Location: " ++ e.location.getD [] ++ strL "\n" else [])
  ++ (if optFull e.summary then strL "Summary: " ++ e.summary.getD [] ++ strL "\n"
      else if optFull e.text then
        strL "Information: " ++
          (if (pyWords (e.text.getD [])).length > 100 then
            joinWith (strL " ") ((pyWords (e.text.getD [])).take 100) ++ strL "..."
          else e.text.getD []) ++ strL "\n"
      else [])
  ++ strL "\n"

/-- The structured fallback response of `_generate_db_based_response`
(`llm_response.py` lines 331–354). -/
def dbStructured (q : List Char) (ctx : List DbItem) : List Char :=
  infoHeader q ++ List.flatten (enumMap dbStructItem 1 (ctx.take 3))

/-- One line of the exception-path titles response (`llm_response.py`
lines 363–370). -/
def dbTitleLine (i : Nat) (e : DbItem) : List Char :=
  natStr i ++ strL ". " ++ (match e.title with
    | some t => t
    | none => strL "Event " ++ natStr i)
  ++ (if optFull e.date then strL " (" ++ e.date.getD [] ++ strL ")" else [])
  ++ strL "\n"

/-- The exception-path response of `_generate_db_based_response`
(`llm_response.py` lines 356–372). -/
def dbTitlesResp (q : List Char) (ctx : List DbItem) : List Char :=
  strL "I found the following information about '" ++ q ++ strL "':\n\n"
  ++ List.flatten (enumMap dbTitleLine 1 (ctx.take 5))

/-- The summarizer/truncation fallback ladder of
`_generate_web_based_response` (`llm_response.py` lines 225–251). -/
def webFallback (c : Collab) (q allContent : List Char)
    (sources : List (List Char)) : List Char :=
  if (pyWords allContent).length > 50 then
    match (if c.sumLoadOk then c.sumFn allContent else .error ()) with
    | .ok s => attachSources (infoHeader q ++ s) sources
    | .error _ =>
      let ws := pyWords allContent
      let t := joinWith (strL " ") (ws.take 300)
      infoHeader q ++ (if (ws.take 300).length < ws.length then t ++ strL "..." else t)
  else infoHeader q ++ pyStrip allContent

/-- `_generate_web_based_response` (`llm_response.py` lines 140–256).
Every failure source inside the function body is caught by an inner
handler, so the outer `except` (lines 253–256) is unreachable here. -/
def genWebBased (c : Collab) (q : List Char) (web : List WebItem)
    (db : List DbItem) : List Char :=
  let allContent := buildAllContent web db
  let sources := buildSources web db
  if c.modelLoadOk then
    match c.genFn (webPrompt q allContent) with
    | .ok r =>
      let p := webPrompt q allContent
      attachSources (if p.isPrefixOf r then pyStrip (r.drop p.length) else r) sources
    | .error _ => webFallback c q allContent sources
  else webFallback c q allContent sources

/-- The fallback ladder of `_generate_db_based_response`
(`llm_response.py` lines 314–372): summarize when the accumulated text has
more than 30 words and the summarizer is loaded (a raising summarizer is
caught by the outer handler, yielding the titles response), otherwise the
structured response. -/
def dbFallback (c : Collab) (q : List Char) (ctx : List DbItem) : List Char :=
  let allText := ctx.foldl dbContentStep []
  if allText ≠ [] ∧ (pyWords allText).length > 30 then
    if c.sumLoadOk then
      match c.sumFn allText with
      | .ok s => infoHeader q ++ s
      | .error _ => dbTitlesResp q ctx
    else dbStructured q ctx
  else dbStructured q ctx

/-- `_generate_db_based_response` (`llm_response.py` lines 258–372).
No citation block is ever appended on this path. -/
def genDbBased (c : Collab) (q : List Char) (ctx : List DbItem) : List Char :=
  if c.modelLoadOk then
    match c.genFn (dbPrompt q (formatContext ctx)) with
    | .ok r =>
      let p := dbPrompt q (formatContext ctx)
      if p.isPrefixOf r then pyStrip (r.drop p.length) else r
    | .error _ => dbFallback c q ctx
  else dbFallback c q ctx

/-- The canned no-information response of `generate_response`
(`llm_response.py` line 125). -/
def cannedNoInfo (q : List Char) : List Char :=
  strL "I couldn't find any information about '" ++ q ++
  strL "'. Please try a different query or check your internet connection."

/-- The unreachable final return of `generate_response`
(`llm_response.py` line 138). -/
def cannedNoInfo2 (q : List Char) : List Char :=
  strL "I couldn't find any information about '" ++ q ++
  strL "'. Please try a different query."

/-- The outer exception handler message of `find_and_respond`
(`llm_response.py` line 625). -/
def errMsgFind (q : List Char) : List Char :=
  strL "I encountered an error while searching for information about '" ++ q ++
  strL "'. Please try again with a different query."

/-- `generate_response` (`llm_response.py` lines 99–138).  When both
evidence lists are empty it retries the web scraper with `max_results=5`
(line 117, the retry exception being caught); only if that also produces
nothing does it return the canned response. -/
def generateResponse (c : Collab) (q : List Char) (ctx : List DbItem)
    (web : List WebItem) : List Char :=
  let web' := if ctx = [] ∧ web = [] then
      (match c.scrapeK 5 with | .ok l => l | .error _ => web)
    else web
  if ctx = [] ∧ web' = [] then cannedNoInfo q
  else if web' ≠ [] then formatResponseText (genWebBased c q web' ctx)
  else if ctx ≠ [] then formatResponseText (genDbBased c q ctx)
  else cannedNoInfo2 q

/-- `find_and_respond` (`llm_response.py` lines 576–625).  The scraper call
has its own handler (degrading to no web data); the embedding call is the
only statement whose exception reaches the outer handler; both search
functions and `generate_response` catch internally. -/
def findAndRespond (c : Collab) (q : List Char) (maxResults : Nat) : List Char :=
  let web := match c.scrapeK 3 with | .ok l => l | .error _ => []
  match c.embedQ with
  | .error _ => errMsgFind q
  | .ok v =>
    let results := searchByVector c.db v maxResults
    let results' := if results = [] then searchByText c.db c.embedQ maxResults
      else results
    generateResponse c q results' web

/-! ### The `/api/llm-response` endpoint (`app.py` lines 129–229) -/

/-- The hard-coded high-priority query pattern (`app.py` lines 142–144):
`"california" in q.lower() and ("wildfire" in q.lower() or "fire" in q.lower())`. -/
def isCalWildfire (q : List Char) : Bool :=
  let lq := q.map pyLowerChar
  pyContains (strL "california") lq ∧
    (pyContains (strL "wildfire") lq ∨ pyContains (strL "fire") lq)

/-- What the endpoint gathered for one query. -/
structure GatherResult where
  kUsed : Nat
  webData : List WebItem
  webSources : List (List Char × List Char × List Char)
  dbUsed : Bool
  dbResults : List DbItem

/-- The database block of the endpoint (`app.py` lines 176–200): connection
handling and embedding exceptions are caught (degrading to no database
data); vector search with `limit=5`, text-search fallback on empty. -/
def endpointDbResults (c : Collab) : List DbItem :=
  if c.connectRaises then []
  else match c.embedQ with
    | .error _ => []
    | .ok v =>
      let r := searchByVector c.db v 5
      if r = [] then searchByText c.db c.embedQ 5 else r

/-- The evidence-gathering portion of the endpoint (`app.py` lines
141–200): web first with `max_results = 5` for the special pattern else
`3`; the database is consulted unless the pattern matched and the web
returned at least two items. -/
def endpointGather (c : Collab) (q : List Char) : GatherResult :=
  let icw := isCalWildfire q
  let k := if icw then 5 else 3
  let web := match c.scrapeK k with | .ok l => l | .error _ => []
  let webSources := web.filterMap (fun d =>
    match d.title, d.source, d.url with
    | some t, some s, some u => some (t, s, u)
    | _, _, _ => none)
  let needDb : Bool := !icw || decide (web.length < 2)
  { kUsed := k, webData := web, webSources := webSources, dbUsed := needDb,
    dbResults := if needDb then endpointDbResults c else [] }

/-- The endpoint result (`{query, response, sources}`). -/
structure EndpointResult where
  queryE : List Char
  responseE : List Char
  sourcesE : List (List Char × List Char × List Char)

/-- The `/api/llm-response` handler body (`app.py` lines 129–229).  All
collaborator failures are caught before this level, so the outer handler
(lines 221–229) is unreachable in the model and the handler is total. -/
def llmEndpoint (c : Collab) (q : List Char) : EndpointResult :=
  let g := endpointGather c q
  let resp :=
    if g.webData ≠ [] ∨ g.dbResults ≠ [] then
      generateResponse c q g.dbResults g.webData
    else
      strL "I couldn't find any information about your query. Please try a different question or check your internet connection."
  { queryE := q, responseE := resp, sourcesE := g.webSources }

/-! ### The `/crisis/query` Source Extractor (`app.py` lines 485–538) -/

/-- Parse one candidate citation line (`app.py` lines 518–528): lines
starting with `-` are stripped of the dash; a line containing `(` and
ending with `)` is split at its last `(`, otherwise the whole remainder is
the title with source `"Unknown"`. -/
def parseDashLine (line : List Char) : Option (List Char × List Char) :=
  if (strL "-").isPrefixOf line then
    let st := pyStrip (line.drop 1)
    if pyContains (strL "(") st ∧ (strL ")").isSuffixOf st then
      match rsplitParen st with
      | some (a, b) => some (pyStrip a, pyStrip b.dropLast)
      | none => some (st, strL "Unknown")
    else some (st, strL "Unknown")
  else none

/-- The source-extraction logic of `crisis_query` (`app.py` lines 509–534):
split on the literal marker; `response_parts[1]` is the segment between the
first and (if any) second occurrence of the marker; its lines starting with
`-` are parsed.  Without the marker the whole text is returned with no
sources. -/
def extractSources (response : List Char) :
    List Char × List (List Char × List Char) :=
  if pyContains srcMarker response then
    match splitFirst srcMarker response with
    | some (before, rest) =>
      let part1 := match splitFirst srcMarker rest with
        | some (a, _) => a
        | none => rest
      (pyStrip before, (splitChar '\n' (pyStrip part1)).filterMap parseDashLine)
    | none => (response, [])
  else (response, [])

/-! ## Word tokens

`tokensCI l` is the list of maximal ASCII-alphanumeric runs of `l`, each
character folded to its case-insensitive key.  The losslessness claim
compares these token lists (as multisets) before and after normalization. -/

/-- Scanner for `tokensCI`; `cur` is the current run, reversed. -/
def tokGo (cur : List Nat) : List Char → List (List Nat)
  | [] => if cur = [] then [] else [cur.reverse]
  | c :: cs =>
    if alnumChar c then tokGo (caseKey c :: cur) cs
    else (if cur = [] then [] else [cur.reverse]) ++ tokGo [] cs

/-- The case-folded alphanumeric word tokens of a text, in order. -/
def tokensCI (l : List Char) : List (List Nat) := tokGo [] l

theorem tokGo_nil (cur : List Nat) :
    tokGo cur [] = if cur = [] then [] else [cur.reverse] := rfl

theorem tokGo_cons (cur : List Nat) (c : Char) (cs : List Char) :
    tokGo cur (c :: cs) =
      if alnumChar c then tokGo (caseKey c :: cur) cs
      else (if cur = [] then [] else [cur.reverse]) ++ tokGo [] cs := rfl

theorem tokGo_append_nonalnum {d : Char} (hd : alnumChar d = false) :
    ∀ (a bs : List Char) (cur : List Nat),
      tokGo cur (a ++ d :: bs) = tokGo cur a ++ tokGo [] bs := by
  intro a
  induction a with
  | nil =>
    intro bs cur
    rw [List.nil_append, tokGo_cons, hd, tokGo_nil]
    simp only [Bool.false_eq_true, if_false]
  | cons x xs ih =>
    intro bs cur
    rw [List.cons_append, tokGo_cons, tokGo_cons]
    by_cases hx : alnumChar x = true
    · rw [hx]
      simp only [if_true]
      exact ih bs _
    · simp only [Bool.not_eq_true] at hx
      rw [hx]
      simp only [Bool.false_eq_true, if_false]
      rw [ih bs [], List.append_assoc]

theorem tokensCI_append_nonalnum {d : Char} (hd : alnumChar d = false)
    (a bs : List Char) :
    tokensCI (a ++ d :: bs) = tokensCI a ++ tokensCI bs :=
  tokGo_append_nonalnum hd a bs []

theorem tokensCI_cons_nonalnum {d : Char} (hd : alnumChar d = false)
    (bs : List Char) : tokensCI (d :: bs) = tokensCI bs := by
  simpa using tokensCI_append_nonalnum hd [] bs

theorem tokGo_nonalnum_head (w : List Char)
    (hw : ∀ c ∈ w, alnumChar c = false) (x : List Char) :
    tokGo [] (w ++ x) = tokGo [] x := by
  induction w with
  | nil => rfl
  | cons d ds ih =>
    rw [List.cons_append, tokGo_cons, hw d (List.mem_cons_self d ds)]
    simp only [Bool.false_eq_true, if_false, if_pos rfl, List.nil_append]
    exact ih (fun c hc => hw c (List.mem_cons_of_mem d hc))

theorem tokensCI_eq_nil (w : List Char)
    (hw : ∀ c ∈ w, alnumChar c = false) : tokensCI w = [] := by
  unfold tokensCI
  have h := tokGo_nonalnum_head w hw []
  rw [List.append_nil] at h
  rw [h]
  rfl

theorem tokensCI_append_nonalnum_suffix (w : List Char)
    (hw : ∀ c ∈ w, alnumChar c = false) (x : List Char) :
    tokensCI (x ++ w) = tokensCI x := by
  cases w with
  | nil => simp
  | cons d ds =>
    rw [tokensCI_append_nonalnum (hw d (List.mem_cons_self d ds)) x ds,
      tokensCI_eq_nil ds (fun c hc => hw c (List.mem_cons_of_mem d hc)),
      List.append_nil]

theorem tokGo_nonalnum_run (w : List Char) (hw : w ≠ [])
    (hws : ∀ c ∈ w, alnumChar c = false) (x : List Char) (cur : List Nat) :
    tokGo cur (w ++ x) =
      (if cur = [] then [] else [cur.reverse]) ++ tokGo [] x := by
  cases w with
  | nil => exact absurd rfl hw
  | cons d ds =>
    rw [List.cons_append, tokGo_cons, hws d (List.mem_cons_self d ds)]
    simp only [Bool.false_eq_true, if_false]
    rw [tokGo_nonalnum_head ds (fun c hc => hws c (List.mem_cons_of_mem d hc)) x]

theorem tokensCI_upFirst_append (s X : List Char) :
    tokensCI (upFirst s ++ X) = tokensCI (s ++ X) := by
  cases s with
  | nil => rfl
  | cons c cs =>
    simp only [upFirst, List.cons_append, tokensCI, tokGo,
      alnumChar_pyUpperChar, caseKey_pyUpperChar]

theorem tokensCI_capSent1_append (s X : List Char) :
    tokensCI (capSent1 s ++ X) = tokensCI (s ++ X) := by
  unfold capSent1
  split
  · split
    · exact tokensCI_upFirst_append s X
    · rfl
  · rfl

theorem tokensCI_capAlone1_append (s X : List Char) :
    tokensCI (capAlone1 s ++ X) = tokensCI (s ++ X) := by
  unfold capAlone1
  split
  · exact tokensCI_upFirst_append s X
  · rfl

theorem tokensCI_capSent2_append (s X : List Char) :
    tokensCI (capSent2 s ++ X) = tokensCI (s ++ X) := by
  unfold capSent2
  split
  · split
    · exact tokensCI_upFirst_append s X
    · rfl
  · rfl

theorem tokensCI_capAlone2_append (s X : List Char) :
    tokensCI (capAlone2 s ++ X) = tokensCI (s ++ X) := by
  unfold capAlone2
  split
  · exact tokensCI_upFirst_append s X
  · rfl

/-! ### Structure of the sentence splitter output -/

theorem not_alnum_of_termChar {c : Char} (h : termChar c = true) :
    alnumChar c = false := by
  unfold termChar at h
  unfold alnumChar
  simp only [decide_eq_true_eq] at h
  simp only [decide_eq_false_iff_not]
  rcases h with h | h | h <;> subst h <;> simp

theorem ssGo_flatten :
    ∀ (l : List Char) (m : Bool) (cur : List Char),
      (ssGo m cur l).flatten = cur.reverse ++ l := by
  intro l
  induction l with
  | nil =>
    intro m cur
    cases m <;> simp [ssGo]
  | cons c rest ih =>
    intro m cur
    cases m with
    | false =>
      rw [show ssGo false cur (c :: rest) =
        (if termChar c ∧ headSpace rest then cur.reverse :: ssGo true [c] rest
         else ssGo false (c :: cur) rest) from rfl]
      split
      · simp only [List.flatten_cons]
        rw [ih true [c]]
        simp
      · rw [ih false (c :: cur)]
        simp
    | true =>
      rw [show ssGo true cur (c :: rest) =
        (if pySpace c then ssGo true (c :: cur) rest
         else if termChar c ∧ headSpace rest then
           cur.reverse :: [] :: ssGo true [c] rest
         else cur.reverse :: ssGo false [c] rest) from rfl]
      split
      · rw [ih true (c :: cur)]
        simp
      · split
        · simp only [List.flatten_cons, List.flatten_nil]
          rw [ih true [c]]
          simp
        · simp only [List.flatten_cons]
          rw [ih false [c]]
          simp

/-- A separator part of the `re.split` output: one terminator character
followed by a non-empty whitespace run. -/
def IsSepPart (s : List Char) : Prop :=
  ∃ p w, termChar p = true ∧ w ≠ [] ∧ (∀ c ∈ w, pySpace c = true) ∧ s = p :: w

/-- Every part at an odd index is a separator part. -/
def OddsSeps : List (List Char) → Prop
  | [] => True
  | [_] => True
  | _ :: s :: rest => IsSepPart s ∧ OddsSeps rest

theorem sepStart_of_isSepPart {s : List Char} (h : IsSepPart s) :
    sepStart s = true := by
  obtain ⟨p, w, hp, hw, hws, rfl⟩ := h
  cases w with
  | nil => exact absurd rfl hw
  | cons d ds =>
    show (termChar p ∧ pySpace d : Bool) = true
    simp [hp, hws d (List.mem_cons_self d ds)]

theorem ssGo_struct :
    ∀ (l : List Char),
      (∀ cur, OddsSeps (ssGo false cur l)) ∧
      (∀ (p : Char) (wsRev : List Char), termChar p = true →
        (∀ c ∈ wsRev, pySpace c = true) →
        (wsRev ≠ [] ∨ headSpace l = true) →
        ∃ s rest, ssGo true (wsRev ++ [p]) l = s :: rest ∧
          IsSepPart s ∧ OddsSeps rest) := by
  intro l
  induction l with
  | nil =>
    constructor
    · intro cur
      show OddsSeps [cur.reverse]
      trivial
    · intro p wsRev hp hws hinv
      refine ⟨p :: wsRev.reverse, [[]], ?_, ?_, trivial⟩
      · show [(wsRev ++ [p]).reverse, []] = _
        simp
      · refine ⟨p, wsRev.reverse, hp, ?_, ?_, rfl⟩
        · have : wsRev ≠ [] := by
            rcases hinv with h | h
            · exact h
            · simp [headSpace] at h
          simpa using this
        · intro c hc
          exact hws c (List.mem_reverse.1 hc)
  | cons c rest ih =>
    constructor
    · intro cur
      rw [show ssGo false cur (c :: rest) =
        (if termChar c ∧ headSpace rest then cur.reverse :: ssGo true [c] rest
         else ssGo false (c :: cur) rest) from rfl]
      split
      · rename_i hc
        obtain ⟨s, r, heq, hsep, hodds⟩ :=
          ih.2 c [] hc.1 (by intro x hx; cases hx) (Or.inr hc.2)
        rw [show ([] : List Char) ++ [c] = [c] from rfl] at heq
        rw [heq]
        exact ⟨hsep, hodds⟩
      · exact ih.1 (c :: cur)
    · intro p wsRev hp hws hinv
      rw [show ssGo true (wsRev ++ [p]) (c :: rest) =
        (if pySpace c then ssGo true (c :: (wsRev ++ [p])) rest
         else if termChar c ∧ headSpace rest then
           (wsRev ++ [p]).reverse :: [] :: ssGo true [c] rest
         else (wsRev ++ [p]).reverse :: ssGo false [c] rest) from rfl]
      split
      · rename_i hc
        have := ih.2 p (c :: wsRev) hp
          (by
            intro x hx
            rcases List.mem_cons.1 hx with h | h
            · subst h; exact hc
            · exact hws x h)
          (Or.inl (by simp))
        rw [show c :: (wsRev ++ [p]) = (c :: wsRev) ++ [p] from rfl]
        exact this
      · rename_i hc
        have hwne : wsRev ≠ [] := by
          rcases hinv with h | h
          · exact h
          · simp only [headSpace] at h
            rw [h] at hc
            exact absurd rfl hc
        have hsep1 : IsSepPart (wsRev ++ [p]).reverse := by
          refine ⟨p, wsRev.reverse, hp, by simpa using hwne,
            (fun x hx => hws x (List.mem_reverse.1 hx)), by simp⟩
        split
        · rename_i hc2
          obtain ⟨s, r, heq, hsep, hodds⟩ :=
            ih.2 c [] hc2.1 (by intro x hx; cases hx) (Or.inr hc2.2)
          rw [show ([] : List Char) ++ [c] = [c] from rfl] at heq
          rw [heq]
          exact ⟨(wsRev ++ [p]).reverse, [] :: s :: r, rfl, hsep1, hsep, hodds⟩
        · exact ⟨(wsRev ++ [p]).reverse, ssGo false [c] rest, rfl, hsep1,
            ih.1 [c]⟩

theorem splitSents_oddsSeps (l : List Char) : OddsSeps (splitSents l) :=
  (ssGo_struct l).1 []

theorem splitSents_flatten (l : List Char) : (splitSents l).flatten = l := by
  have := ssGo_flatten l false []
  simpa [splitSents] using this

/-! ### Token preservation of the two re-joining loops -/

theorem List.mem_takeWhile_imp' {p : Char → Bool} {l : List Char} {x : Char}
    (h : x ∈ l.takeWhile p) : p x = true := by
  induction l with
  | nil => cases h
  | cons c cs ih =>
    rw [List.takeWhile_cons] at h
    by_cases hc : p c = true
    · rw [hc] at h
      simp only [if_true] at h
      rcases List.mem_cons.1 h with h | h
      · subst h; exact hc
      · exact ih h
    · simp only [Bool.not_eq_true] at hc
      rw [hc] at h
      simp at h

theorem all_space_of_pyStrip_eq_nil {l : List Char} (h : pyStrip l = []) :
    ∀ c ∈ l, pySpace c = true := by
  unfold pyStrip at h
  rw [List.reverse_eq_nil_iff, List.dropWhile_eq_nil_iff] at h
  intro c hc
  have hsplit := List.takeWhile_append_dropWhile (fun c => pySpace c) l
  rw [← hsplit] at hc
  rcases List.mem_append.1 hc with h1 | h1
  · exact List.mem_takeWhile_imp' h1
  · exact h c (List.mem_reverse.2 h1)

theorem joinLoop1_cons_cons (s0 s1 : List Char) (rest : List (List Char)) :
    joinLoop1 (s0 :: s1 :: rest) =
      if sepStart s1 then capSent1 (s0 ++ s1) :: joinLoop1 rest
      else if pyStrip s0 ≠ [] then capAlone1 s0 :: joinLoop1 (s1 :: rest)
      else joinLoop1 (s1 :: rest) := rfl

theorem joinLoop2_cons_cons (first : Bool) (s0 s1 : List Char)
    (rest : List (List Char)) :
    joinLoop2 first (s0 :: s1 :: rest) =
      if sepStart s1 then
        (if first then capSent2 (s0 ++ s1) else s0 ++ s1) :: joinLoop2 false rest
      else if pyStrip s0 ≠ [] then
        (if first then capAlone2 s0 else s0) :: joinLoop2 false (s1 :: rest)
      else joinLoop2 false (s1 :: rest) := rfl

theorem tokensCI_singleton_part (s0 : List Char) (f : List Char → List Char)
    (hf : tokensCI (f s0 ++ []) = tokensCI (s0 ++ []))
    (hkeep : (if pyStrip s0 ≠ [] then [f s0] else []).flatten =
      if pyStrip s0 ≠ [] then f s0 ++ [] else []) :
    tokensCI (if pyStrip s0 ≠ [] then [f s0] else []).flatten =
      tokensCI [s0].flatten := by
  rw [hkeep]
  by_cases hs : pyStrip s0 = []
  · simp only [hs, ne_eq, not_true_eq_false, if_false]
    have h0 : tokensCI s0 = [] :=
      tokensCI_eq_nil s0
        (fun c hc => not_alnum_of_pySpace (all_space_of_pyStrip_eq_nil hs c hc))
    simp only [List.flatten_nil, List.flatten_cons, List.append_nil]
    show tokensCI [] = tokensCI s0
    rw [h0]
    rfl
  · simp only [hs, ne_eq, not_false_eq_true, if_true]
    rw [hf]
    simp

theorem joinLoop1_tokens :
    ∀ (parts : List (List Char)), OddsSeps parts →
      tokensCI (joinLoop1 parts).flatten = tokensCI parts.flatten
  | [], _ => rfl
  | [s0], _ => by
    rw [show joinLoop1 [s0] =
      (if pyStrip s0 ≠ [] then [capAlone1 s0] else []) from rfl]
    exact tokensCI_singleton_part s0 capAlone1 (tokensCI_capAlone1_append s0 [])
      (by by_cases hs : pyStrip s0 = [] <;> simp [hs])
  | s0 :: s1 :: rest, h => by
    obtain ⟨hsep, hrest⟩ := (h : IsSepPart s1 ∧ OddsSeps rest)
    have hss := sepStart_of_isSepPart hsep
    rw [joinLoop1_cons_cons, if_pos hss]
    obtain ⟨p, w, hp, hwne, hws, rfl⟩ := hsep
    have ihr := joinLoop1_tokens rest hrest
    simp only [List.flatten_cons]
    rw [tokensCI_capSent1_append]
    have hnal : ∀ c ∈ w, alnumChar c = false :=
      fun c hc => not_alnum_of_pySpace (hws c hc)
    rw [show (s0 ++ p :: w) ++ (joinLoop1 rest).flatten =
      s0 ++ p :: (w ++ (joinLoop1 rest).flatten) by simp]
    rw [show s0 ++ (p :: w ++ rest.flatten) =
      s0 ++ p :: (w ++ rest.flatten) by simp]
    rw [tokensCI_append_nonalnum (not_alnum_of_termChar hp),
      tokensCI_append_nonalnum (not_alnum_of_termChar hp)]
    show tokensCI s0 ++ tokGo [] (w ++ (joinLoop1 rest).flatten) =
      tokensCI s0 ++ tokGo [] (w ++ rest.flatten)
    rw [tokGo_nonalnum_head w hnal, tokGo_nonalnum_head w hnal]
    show tokensCI s0 ++ tokensCI (joinLoop1 rest).flatten =
      tokensCI s0 ++ tokensCI rest.flatten
    rw [ihr]

theorem joinLoop2_tokens :
    ∀ (parts : List (List Char)) (first : Bool), OddsSeps parts →
      tokensCI (joinLoop2 first parts).flatten = tokensCI parts.flatten
  | [], _, _ => rfl
  | [s0], first, _ => by
    rw [show joinLoop2 first [s0] =
      (if pyStrip s0 ≠ [] then [if first then capAlone2 s0 else s0] else [])
      from rfl]
    cases first with
    | true =>
      exact tokensCI_singleton_part s0 capAlone2
        (tokensCI_capAlone2_append s0 [])
        (by by_cases hs : pyStrip s0 = [] <;> simp [hs])
    | false =>
      exact tokensCI_singleton_part s0 id rfl
        (by by_cases hs : pyStrip s0 = [] <;> simp [hs])
  | s0 :: s1 :: rest, first, h => by
    obtain ⟨hsep, hrest⟩ := (h : IsSepPart s1 ∧ OddsSeps rest)
    have hss := sepStart_of_isSepPart hsep
    rw [joinLoop2_cons_cons, if_pos hss]
    obtain ⟨p, w, hp, hwne, hws, rfl⟩ := hsep
    have ihr := joinLoop2_tokens rest false hrest
    simp only [List.flatten_cons]
    have hcap : tokensCI ((if first then capSent2 (s0 ++ p :: w)
        else s0 ++ p :: w) ++ (joinLoop2 false rest).flatten) =
        tokensCI ((s0 ++ p :: w) ++ (joinLoop2 false rest).flatten) := by
      cases first
      · rfl
      · exact tokensCI_capSent2_append _ _
    rw [hcap]
    have hnal : ∀ c ∈ w, alnumChar c = false :=
      fun c hc => not_alnum_of_pySpace (hws c hc)
    rw [show (s0 ++ p :: w) ++ (joinLoop2 false rest).flatten =
      s0 ++ p :: (w ++ (joinLoop2 false rest).flatten) by simp]
    rw [show s0 ++ (p :: w ++ rest.flatten) =
      s0 ++ p :: (w ++ rest.flatten) by simp]
    rw [tokensCI_append_nonalnum (not_alnum_of_termChar hp),
      tokensCI_append_nonalnum (not_alnum_of_termChar hp)]
    show tokensCI s0 ++ tokGo [] (w ++ (joinLoop2 false rest).flatten) =
      tokensCI s0 ++ tokGo [] (w ++ rest.flatten)
    rw [tokGo_nonalnum_head w hnal, tokGo_nonalnum_head w hnal]
    show tokensCI s0 ++ tokensCI (joinLoop2 false rest).flatten =
      tokensCI s0 ++ tokensCI rest.flatten
    rw [ihr]

/-! ### Token preservation of strip, newline collapsing and paragraph glue -/

theorem tokensCI_stripL (l : List Char) : tokensCI (stripL l) = tokensCI l := by
  conv_rhs =>
    rw [← List.takeWhile_append_dropWhile (fun c => pySpace c) l]
  show tokensCI (stripL l) = tokGo [] (l.takeWhile (fun c => pySpace c) ++ stripL l)
  rw [tokGo_nonalnum_head (l.takeWhile (fun c => pySpace c))
    (fun c hc => not_alnum_of_pySpace (List.mem_takeWhile_imp' hc))]
  rfl

theorem tokensCI_pyStrip (l : List Char) : tokensCI (pyStrip l) = tokensCI l := by
  rw [← tokensCI_stripL l]
  have hdec : stripL l = pyStrip l ++
      ((stripL l).reverse.takeWhile (fun c => pySpace c)).reverse := by
    unfold pyStrip
    rw [← List.reverse_append,
      List.takeWhile_append_dropWhile (fun c => pySpace c) (stripL l).reverse,
      List.reverse_reverse]
  rw [hdec, tokensCI_append_nonalnum_suffix]
  intro c hc
  exact not_alnum_of_pySpace
    (List.mem_takeWhile_imp' (List.mem_reverse.1 hc))

theorem flushRun_all_space {runRev : List Char}
    (h : ∀ c ∈ runRev, pySpace c = true) :
    ∀ c ∈ flushRun runRev, pySpace c = true := by
  unfold flushRun
  split
  · intro c hc
    rcases List.mem_cons.1 hc with h1 | h1
    · subst h1; rfl
    · cases h1
  · intro c hc
    exact h c (List.mem_reverse.1 hc)

theorem tokGo_collapseGo :
    ∀ (l runRev : List Char), (∀ c ∈ runRev, pySpace c = true) →
      ∀ cur, tokGo cur (collapseGo runRev l) = tokGo cur (runRev.reverse ++ l) := by
  intro l
  induction l with
  | nil =>
    intro runRev hrr cur
    show tokGo cur (flushRun runRev) = tokGo cur (runRev.reverse ++ [])
    rw [List.append_nil]
    by_cases h0 : runRev = []
    · subst h0
      rfl
    · rw [show (flushRun runRev) = flushRun runRev ++ [] by simp,
        show (runRev.reverse) = runRev.reverse ++ [] by simp]
      rw [tokGo_nonalnum_run (flushRun runRev)
          (by
            unfold flushRun
            split
            · simp
            · simpa using h0)
          (fun c hc => not_alnum_of_pySpace (flushRun_all_space hrr c hc)) [] cur,
        tokGo_nonalnum_run runRev.reverse (by simpa using h0)
          (fun c hc =>
            not_alnum_of_pySpace (hrr c (List.mem_reverse.1 hc))) [] cur]
  | cons c rest ih =>
    intro runRev hrr cur
    rw [show collapseGo runRev (c :: rest) =
      (if pySpace c then collapseGo (c :: runRev) rest
       else flushRun runRev ++ c :: collapseGo [] rest) from rfl]
    by_cases hc : pySpace c = true
    · rw [if_pos hc]
      rw [ih (c :: runRev)
        (by
          intro x hx
          rcases List.mem_cons.1 hx with h1 | h1
          · subst h1; exact hc
          · exact hrr x h1) cur]
      simp
    · rw [if_neg hc]
      by_cases h0 : runRev = []
      · subst h0
        show tokGo cur (c :: collapseGo [] rest) = tokGo cur (c :: rest)
        rw [tokGo_cons, tokGo_cons]
        by_cases ha : alnumChar c = true
        · rw [ha]
          simp only [if_true]
          exact ih [] (by intro x hx; cases hx) _
        · simp only [Bool.not_eq_true] at ha
          rw [ha]
          simp only [Bool.false_eq_true, if_false]
          rw [ih [] (by intro x hx; cases hx) []]
          simp
      · have hfne : flushRun runRev ≠ [] := by
          unfold flushRun
          split
          · simp
          · simpa using h0
        have hfsp : ∀ x ∈ flushRun runRev, alnumChar x = false :=
          fun x hx => not_alnum_of_pySpace (flushRun_all_space hrr x hx)
        have hrsp : ∀ x ∈ runRev.reverse, alnumChar x = false :=
          fun x hx => not_alnum_of_pySpace (hrr x (List.mem_reverse.1 hx))
        rw [tokGo_nonalnum_run (flushRun runRev) hfne hfsp _ cur,
          tokGo_nonalnum_run runRev.reverse (by simpa using h0) hrsp _ cur]
        congr 1
        rw [tokGo_cons, tokGo_cons]
        by_cases ha : alnumChar c = true
        · rw [ha]
          simp only [if_true]
          exact ih [] (by intro x hx; cases hx) _
        · simp only [Bool.not_eq_true] at ha
          rw [ha]
          simp only [Bool.false_eq_true, if_false]
          rw [ih [] (by intro x hx; cases hx) []]
          simp

theorem tokensCI_collapseNl (l : List Char) :
    tokensCI (collapseNl l) = tokensCI l := by
  have := tokGo_collapseGo l [] (by intro x hx; cases hx) []
  simpa [collapseNl] using this

/-! ### Paragraph split / join round trip -/

theorem splitNNGo_ne_nil :
    ∀ (l cur : List Char), splitNNGo cur l ≠ []
  | [], cur => by
    rw [show splitNNGo cur [] = [cur.reverse] from rfl]
    simp
  | [c], cur => by
    rw [show splitNNGo cur [c] = [(c :: cur).reverse] from rfl]
    simp
  | c :: d :: rest, cur => by
    rw [show splitNNGo cur (c :: d :: rest) =
      (if c = '\n' ∧ d = '\n' then cur.reverse :: splitNNGo [] rest
       else splitNNGo (c :: cur) (d :: rest)) from rfl]
    split
    · simp
    · exact splitNNGo_ne_nil (d :: rest) (c :: cur)

theorem joinWith_cons_of_ne_nil (sep x : List Char) {out : List (List Char)}
    (h : out ≠ []) : joinWith sep (x :: out) = x ++ sep ++ joinWith sep out := by
  cases out with
  | nil => exact absurd rfl h
  | cons y t => rfl

theorem joinWith_splitNNGo :
    ∀ (l cur : List Char),
      joinWith (strL "\n\n") (splitNNGo cur l) = cur.reverse ++ l
  | [], cur => by
    rw [show splitNNGo cur [] = [cur.reverse] from rfl]
    simp [joinWith]
  | [c], cur => by
    rw [show splitNNGo cur [c] = [(c :: cur).reverse] from rfl]
    simp [joinWith]
  | c :: d :: rest, cur => by
    rw [show splitNNGo cur (c :: d :: rest) =
      (if c = '\n' ∧ d = '\n' then cur.reverse :: splitNNGo [] rest
       else splitNNGo (c :: cur) (d :: rest)) from rfl]
    split
    · rename_i hnn
      obtain ⟨h1, h2⟩ := hnn
      subst h1
      subst h2
      rw [joinWith_cons_of_ne_nil _ _ (splitNNGo_ne_nil rest [])]
      rw [joinWith_splitNNGo rest []]
      simp [strL]
    · rw [joinWith_splitNNGo (d :: rest) (c :: cur)]
      simp

theorem joinWith_splitNN (l : List Char) :
    joinWith (strL "\n\n") (splitNN l) = l := by
  have := joinWith_splitNNGo l []
  simpa [splitNN] using this

theorem tokensCI_joinWith {sep : List Char} (hne : sep ≠ [])
    (hsep : ∀ c ∈ sep, alnumChar c = false) :
    ∀ (parts : List (List Char)),
      tokensCI (joinWith sep parts) = (parts.map tokensCI).flatten
  | [] => rfl
  | [x] => by simp [joinWith]
  | x :: y :: rest => by
    rw [show joinWith sep (x :: y :: rest) =
      x ++ sep ++ joinWith sep (y :: rest) from rfl]
    cases sep with
    | nil => exact absurd rfl hne
    | cons d ds =>
      rw [show x ++ (d :: ds) ++ joinWith (d :: ds) (y :: rest) =
        x ++ d :: (ds ++ joinWith (d :: ds) (y :: rest)) by simp]
      rw [tokensCI_append_nonalnum (hsep d (List.mem_cons_self d ds))]
      show tokensCI x ++ tokGo [] (ds ++ joinWith (d :: ds) (y :: rest)) = _
      rw [tokGo_nonalnum_head ds
        (fun c hc => hsep c (List.mem_cons_of_mem d hc))]
      rw [show tokGo [] (joinWith (d :: ds) (y :: rest)) =
        tokensCI (joinWith (d :: ds) (y :: rest)) from rfl]
      rw [tokensCI_joinWith hne hsep (y :: rest)]
      simp

/-! ### Token preservation of the whole paragraph stage -/

theorem tokensCI_head_cap (l : List Char) :
    tokensCI (if headLower l then upFirst l else l) = tokensCI l := by
  split
  · have := tokensCI_upFirst_append l []
    rw [List.append_nil, List.append_nil] at this
    exact this
  · rfl

theorem tokensCI_procPara (p : List Char) :
    tokensCI (procPara p) = tokensCI p := by
  unfold procPara
  rw [tokensCI_head_cap]
  rw [joinLoop2_tokens _ true (splitSents_oddsSeps (collapseNl (pyStrip p)))]
  rw [splitSents_flatten]
  rw [tokensCI_collapseNl, tokensCI_pyStrip]

theorem tokensCI_paragraphList :
    ∀ (paras : List (List Char)),
      (((paras.filterMap
        (fun p => if pyStrip p ≠ [] then some (procPara p) else none)).map
          tokensCI).flatten : List (List Nat)) =
      ((paras.map tokensCI).flatten : List (List Nat)) := by
  intro paras
  induction paras with
  | nil => rfl
  | cons p rest ih =>
    rw [List.filterMap_cons]
    by_cases hp : pyStrip p = []
    · simp only [hp, ne_eq, not_true_eq_false, if_false]
      rw [List.map_cons, List.flatten_cons]
      rw [tokensCI_eq_nil p
        (fun c hc => not_alnum_of_pySpace (all_space_of_pyStrip_eq_nil hp c hc))]
      rw [List.nil_append]
      exact ih
    · simp only [hp, ne_eq, not_false_eq_true, if_true]
      rw [List.map_cons, List.flatten_cons, List.map_cons, List.flatten_cons]
      rw [tokensCI_procPara, ih]

/-! ### Token preservation of the proper-noun substitution passes -/

/-- Two character lists that agree up to letter case (same case-insensitive
keys, same alphanumeric classification, same whitespace classification). -/
inductive CaseEq : List Char → List Char → Prop
  | nil : CaseEq [] []
  | cons {c d : Char} {a b : List Char} (h1 : caseKey c = caseKey d)
      (h2 : alnumChar c = alnumChar d) (h3 : pySpace c = pySpace d)
      (h : CaseEq a b) : CaseEq (c :: a) (d :: b)

theorem caseEq_of_maps :
    ∀ {a b : List Char}, a.map caseKey = b.map caseKey →
      a.map alnumChar = b.map alnumChar → a.map pySpace = b.map pySpace →
      CaseEq a b
  | [], [], _, _, _ => CaseEq.nil
  | [], _ :: _, h1, _, _ => by cases h1
  | _ :: _, [], h1, _, _ => by cases h1
  | c :: a, d :: b, h1, h2, h3 => by
    rw [List.map_cons, List.map_cons] at h1 h2 h3
    exact CaseEq.cons (List.cons.injEq _ _ _ _ ▸ h1).1
      ((List.cons.injEq _ _ _ _ ▸ h2).1) ((List.cons.injEq _ _ _ _ ▸ h3).1)
      (caseEq_of_maps ((List.cons.injEq _ _ _ _ ▸ h1).2)
        ((List.cons.injEq _ _ _ _ ▸ h2).2) ((List.cons.injEq _ _ _ _ ▸ h3).2))

theorem caseEq_symm {a b : List Char} (h : CaseEq a b) : CaseEq b a := by
  induction h with
  | nil => exact CaseEq.nil
  | cons h1 h2 h3 _ ih => exact CaseEq.cons h1.symm h2.symm h3.symm ih

theorem tokGo_caseEq {a b : List Char} (h : CaseEq a b) :
    ∀ {x y : List Char}, (∀ cur, tokGo cur x = tokGo cur y) →
      ∀ cur, tokGo cur (a ++ x) = tokGo cur (b ++ y) := by
  induction h with
  | nil => intro x y hxy cur; exact hxy cur
  | @cons c d a' b' h1 h2 h3 h ih =>
    intro x y hxy cur
    rw [List.cons_append, List.cons_append, tokGo_cons, tokGo_cons, h2, h1]
    by_cases ha : alnumChar d = true
    · rw [ha]
      simp only [if_true]
      exact ih hxy _
    · simp only [Bool.not_eq_true] at ha
      rw [ha]
      simp only [Bool.false_eq_true, if_false]
      rw [ih hxy []]

theorem isPrefixOf_decomp {w l : List Char} (h : w.isPrefixOf l = true) :
    l = w ++ l.drop w.length := by
  obtain ⟨t, rfl⟩ := List.isPrefixOf_iff_prefix.1 h
  rw [List.drop_left]

theorem tokGo_subWordGo {w r : List Char} (hwr : CaseEq w r) (both : Bool) :
    ∀ (fuel : Nat) (l : List Char) (prevL : Bool) (cur : List Nat),
      tokGo cur (subWordGo w r both fuel prevL l) = tokGo cur l := by
  intro fuel
  induction fuel with
  | zero => intro l prevL cur; rfl
  | succ fuel ih =>
    intro l prevL cur
    cases l with
    | nil => rfl
    | cons c cs =>
      rw [show subWordGo w r both (fuel + 1) prevL (c :: cs) =
        (if w.isPrefixOf (c :: cs) ∧ prevL = false ∧
            (both = true → headLetter ((c :: cs).drop w.length) = false) then
          r ++ subWordGo w r both fuel
            (match w.getLast? with | some d => letterAscii d | none => prevL)
            ((c :: cs).drop w.length)
        else c :: subWordGo w r both fuel (letterAscii c) cs) from rfl]
      split
      · rename_i hcond
        have hdec := isPrefixOf_decomp hcond.1
        conv_rhs => rw [hdec]
        exact tokGo_caseEq (caseEq_symm hwr)
          (fun cur' => ih ((c :: cs).drop w.length) _ cur') cur
      · rw [tokGo_cons, tokGo_cons]
        by_cases ha : alnumChar c = true
        · rw [ha]
          simp only [if_true]
          exact ih cs _ _
        · simp only [Bool.not_eq_true] at ha
          rw [ha]
          simp only [Bool.false_eq_true, if_false]
          rw [ih cs _ []]

theorem tokensCI_subWordB {w r : List Char} (hwr : CaseEq w r) (l : List Char) :
    tokensCI (subWordB w r l) = tokensCI l :=
  tokGo_subWordGo hwr true l.length l false []

theorem tokensCI_subWordP {w r : List Char} (hwr : CaseEq w r) (l : List Char) :
    tokensCI (subWordP w r l) = tokensCI l :=
  tokGo_subWordGo hwr false l.length l false []

theorem tokensCI_foldB (pairs : List (List Char × List Char))
    (h : ∀ pr ∈ pairs, CaseEq pr.1 pr.2) (t : List Char) :
    tokensCI (pairs.foldl (fun acc wr => subWordB wr.1 wr.2 acc) t) =
      tokensCI t := by
  induction pairs generalizing t with
  | nil => rfl
  | cons pr rest ih =>
    rw [List.foldl_cons]
    rw [ih (fun x hx => h x (List.mem_cons_of_mem pr hx))]
    exact tokensCI_subWordB (h pr (List.mem_cons_self pr rest)) t

theorem tokensCI_foldP (pairs : List (List Char × List Char))
    (h : ∀ pr ∈ pairs, CaseEq pr.1 pr.2) (t : List Char) :
    tokensCI (pairs.foldl (fun acc wr => subWordP wr.1 wr.2 acc) t) =
      tokensCI t := by
  induction pairs generalizing t with
  | nil => rfl
  | cons pr rest ih =>
    rw [List.foldl_cons]
    rw [ih (fun x hx => h x (List.mem_cons_of_mem pr hx))]
    exact tokensCI_subWordP (h pr (List.mem_cons_self pr rest)) t

theorem gazetteerB_caseEq : ∀ pr ∈ gazetteerB, CaseEq pr.1 pr.2 := by
  intro pr hpr
  simp only [gazetteerB, List.mem_cons, List.not_mem_nil, or_false] at hpr
  rcases hpr with rfl | rfl | rfl | rfl | rfl | rfl | rfl | rfl | rfl | rfl | rfl <;>
    exact caseEq_of_maps (by decide) (by decide) (by decide)

theorem gazetteerP_caseEq : ∀ pr ∈ gazetteerP, CaseEq pr.1 pr.2 := by
  intro pr hpr
  simp only [gazetteerP, List.mem_cons, List.not_mem_nil, or_false] at hpr
  rcases hpr with rfl | rfl | rfl | rfl <;>
    exact caseEq_of_maps (by decide) (by decide) (by decide)

theorem tokensCI_properPasses (t : List Char) :
    tokensCI (properPasses t) = tokensCI t := by
  unfold properPasses
  rw [tokensCI_foldP gazetteerP gazetteerP_caseEq,
    tokensCI_foldB gazetteerB gazetteerB_caseEq]

/-! ### Token preservation of the full normalizer -/

theorem tokensCI_normalizeBody (p : List Char) :
    tokensCI (normalizeBody p) = tokensCI p := by
  unfold normalizeBody
  rw [tokensCI_properPasses]
  rw [tokensCI_joinWith (by simp [strL]) (by decide)]
  rw [tokensCI_paragraphList]
  rw [show ((splitNN (joinLoop1 (splitSents p)).flatten).map tokensCI).flatten =
    tokensCI (joinWith (strL "\n\n") (splitNN (joinLoop1 (splitSents p)).flatten))
    from (tokensCI_joinWith (by simp [strL]) (by decide) _).symm]
  rw [joinWith_splitNN]
  rw [joinLoop1_tokens _ (splitSents_oddsSeps p)]
  rw [splitSents_flatten]

theorem headerSplit_cases (text : List Char) :
    (headerSplit text).1 ++ (headerSplit text).2 = text ∧
      ((headerSplit text).1 = [] ∨
        ∃ a, (headerSplit text).1 = a ++ strL "\n\n") := by
  unfold headerSplit
  split
  · rename_i hcond
    cases hsp : splitFirst (strL "\n\n") text with
    | none =>
      exfalso
      have := hcond.2
      unfold pyContains at this
      rw [hsp] at this
      cases this
    | some p =>
      obtain ⟨a, b⟩ := p
      have := splitFirst_eq_some hsp
      constructor
      · simp only []
        rw [this, List.append_assoc]
      · right
        exact ⟨a, rfl⟩
  · exact ⟨by simp, Or.inl rfl⟩

theorem sourceSplit_cases (content : List Char) :
    (sourceSplit content).1 ++ (sourceSplit content).2 = content ∧
      ((sourceSplit content).2 = [] ∨
        ∃ b, (sourceSplit content).2 = srcMarkerNl ++ b) := by
  unfold sourceSplit
  split
  · rename_i hcond
    cases hsp : splitFirst srcMarkerNl content with
    | none =>
      exfalso
      unfold pyContains at hcond
      rw [hsp] at hcond
      cases hcond
    | some p =>
      obtain ⟨a, b⟩ := p
      have := splitFirst_eq_some hsp
      constructor
      · simp only []
        rw [List.append_assoc] at this
        rw [← this]
      · right
        exact ⟨b, rfl⟩
  · exact ⟨by simp, Or.inl rfl⟩

theorem tokensCI_append_left_sep {h : List Char}
    (hcase : h = [] ∨ ∃ a, h = a ++ strL "\n\n") (X : List Char) :
    tokensCI (h ++ X) = tokensCI h ++ tokensCI X := by
  rcases hcase with rfl | ⟨a, rfl⟩
  · simp [tokensCI, tokGo]
  · rw [show (a ++ strL "\n\n") ++ X = a ++ '\n' :: ('\n' :: X) by simp [strL]]
    rw [tokensCI_append_nonalnum (by decide)]
    rw [tokensCI_cons_nonalnum (by decide)]
    rw [show a ++ strL "\n\n" = a ++ '\n' :: ['\n'] by simp [strL]]
    rw [tokensCI_append_nonalnum (by decide)]
    rw [show tokensCI ['\n'] = [] from rfl]
    simp

theorem tokensCI_append_right_src {src : List Char}
    (hcase : src = [] ∨ ∃ b, src = srcMarkerNl ++ b) (Y : List Char) :
    tokensCI (Y ++ src) = tokensCI Y ++ tokensCI src := by
  rcases hcase with rfl | ⟨b, rfl⟩
  · simp [tokensCI, tokGo]
  · rw [show srcMarkerNl ++ b = '\n' :: (strL "\n**Sources:**\n" ++ b) from rfl]
    rw [tokensCI_append_nonalnum (by decide)]
    rw [tokensCI_cons_nonalnum (by decide)]

theorem tokensCI_formatResponseText (l : List Char) :
    tokensCI (formatResponseText l) = tokensCI l := by
  unfold formatResponseText
  split
  · rfl
  · obtain ⟨hj1, hcase1⟩ := headerSplit_cases l
    obtain ⟨hj2, hcase2⟩ := sourceSplit_cases (headerSplit l).2
    rw [List.append_assoc]
    rw [tokensCI_append_left_sep hcase1]
    rw [tokensCI_append_right_src hcase2]
    rw [tokensCI_normalizeBody]
    rw [← tokensCI_append_right_src hcase2]
    rw [hj2]
    rw [← tokensCI_append_left_sep hcase1]
    rw [hj1]

/-! ## Preservation of non-whitespace content (used for non-emptiness) -/

/-- The text contains at least one non-whitespace character. -/
def hasNS (l : List Char) : Prop := ∃ c ∈ l, pySpace c = false

theorem hasNS_ne_nil {l : List Char} (h : hasNS l) : l ≠ [] := by
  obtain ⟨c, hc, _⟩ := h
  intro h0
  subst h0
  cases hc

theorem hasNS_append_left {x : List Char} (h : hasNS x) (y : List Char) :
    hasNS (x ++ y) := by
  obtain ⟨c, hc, hns⟩ := h
  exact ⟨c, List.mem_append.2 (Or.inl hc), hns⟩

theorem hasNS_append_right {x : List Char} (h : hasNS x) (y : List Char) :
    hasNS (y ++ x) := by
  obtain ⟨c, hc, hns⟩ := h
  exact ⟨c, List.mem_append.2 (Or.inr hc), hns⟩

theorem hasNS_append_elim {x y : List Char} (h : hasNS (x ++ y)) :
    hasNS x ∨ hasNS y := by
  obtain ⟨c, hc, hns⟩ := h
  rcases List.mem_append.1 hc with h1 | h1
  · exact Or.inl ⟨c, h1, hns⟩
  · exact Or.inr ⟨c, h1, hns⟩

theorem hasNS_upFirst {s : List Char} (h : hasNS s) : hasNS (upFirst s) := by
  cases s with
  | nil => exact absurd rfl (hasNS_ne_nil h)
  | cons c cs =>
    obtain ⟨d, hd, hns⟩ := h
    rcases List.mem_cons.1 hd with h1 | h1
    · subst h1
      exact ⟨pyUpperChar d, List.mem_cons_self _ _,
        by rw [pySpace_pyUpperChar]; exact hns⟩
    · exact ⟨d, List.mem_cons_of_mem _ h1, hns⟩

theorem hasNS_condUp {s : List Char} (P : Prop) [Decidable P] (h : hasNS s) :
    hasNS (if P then upFirst s else s) := by
  split
  · exact hasNS_upFirst h
  · exact h

theorem hasNS_capSent1 {s : List Char} (h : hasNS s) : hasNS (capSent1 s) := by
  unfold capSent1
  split
  · exact hasNS_condUp _ h
  · exact h

theorem hasNS_capAlone1 {s : List Char} (h : hasNS s) : hasNS (capAlone1 s) := by
  unfold capAlone1
  exact hasNS_condUp _ h

theorem hasNS_capSent2 {s : List Char} (h : hasNS s) : hasNS (capSent2 s) := by
  unfold capSent2
  split
  · exact hasNS_condUp _ h
  · exact h

theorem hasNS_capAlone2 {s : List Char} (h : hasNS s) : hasNS (capAlone2 s) := by
  unfold capAlone2
  exact hasNS_condUp _ h

theorem not_hasNS_of_pyStrip_eq_nil {s : List Char} (hs : pyStrip s = []) :
    ¬ hasNS s := by
  intro ⟨c, hc, hns⟩
  rw [all_space_of_pyStrip_eq_nil hs c hc] at hns
  cases hns

theorem hasNS_joinLoop1 :
    ∀ (parts : List (List Char)), hasNS parts.flatten →
      hasNS (joinLoop1 parts).flatten
  | [], h => h
  | [s0], h => by
    rw [show joinLoop1 [s0] =
      (if pyStrip s0 ≠ [] then [capAlone1 s0] else []) from rfl]
    simp only [List.flatten_cons, List.flatten_nil, List.append_nil] at h
    have hne : pyStrip s0 ≠ [] := fun hh => not_hasNS_of_pyStrip_eq_nil hh h
    rw [if_pos hne]
    simp only [List.flatten_cons, List.flatten_nil, List.append_nil]
    exact hasNS_capAlone1 h
  | s0 :: s1 :: rest, h => by
    rw [joinLoop1_cons_cons]
    simp only [List.flatten_cons] at h
    split
    · simp only [List.flatten_cons]
      rcases hasNS_append_elim h with h1 | h1
      · exact hasNS_append_left (hasNS_capSent1 (hasNS_append_left h1 s1)) _
      · rcases hasNS_append_elim h1 with h2 | h2
        · exact hasNS_append_left (hasNS_capSent1 (hasNS_append_right h2 s0)) _
        · exact hasNS_append_right (hasNS_joinLoop1 rest h2) _
    · rcases hasNS_append_elim h with h1 | h1
      · have hne : pyStrip s0 ≠ [] := fun hh => not_hasNS_of_pyStrip_eq_nil hh h1
        rw [if_pos hne]
        simp only [List.flatten_cons]
        exact hasNS_append_left (hasNS_capAlone1 h1) _
      · have hrest : hasNS (s1 :: rest).flatten := by
          simp only [List.flatten_cons]
          exact h1
        split
        · simp only [List.flatten_cons]
          exact hasNS_append_right (hasNS_joinLoop1 (s1 :: rest) hrest) _
        · exact hasNS_joinLoop1 (s1 :: rest) hrest

theorem hasNS_joinLoop2 :
    ∀ (parts : List (List Char)) (first : Bool), hasNS parts.flatten →
      hasNS (joinLoop2 first parts).flatten
  | [], _, h => h
  | [s0], first, h => by
    rw [show joinLoop2 first [s0] =
      (if pyStrip s0 ≠ [] then [if first then capAlone2 s0 else s0] else [])
      from rfl]
    simp only [List.flatten_cons, List.flatten_nil, List.append_nil] at h
    have hne : pyStrip s0 ≠ [] := fun hh => not_hasNS_of_pyStrip_eq_nil hh h
    rw [if_pos hne]
    simp only [List.flatten_cons, List.flatten_nil, List.append_nil]
    split
    · exact hasNS_capAlone2 h
    · exact h
  | s0 :: s1 :: rest, first, h => by
    rw [joinLoop2_cons_cons]
    simp only [List.flatten_cons] at h
    split
    · simp only [List.flatten_cons]
      have hcap : ∀ s : List Char, hasNS s →
          hasNS (if first then capSent2 s else s) := by
        intro s hs
        split
        · exact hasNS_capSent2 hs
        · exact hs
      rcases hasNS_append_elim h with h1 | h1
      · exact hasNS_append_left (hcap _ (hasNS_append_left h1 s1)) _
      · rcases hasNS_append_elim h1 with h2 | h2
        · exact hasNS_append_left (hcap _ (hasNS_append_right h2 s0)) _
        · exact hasNS_append_right (hasNS_joinLoop2 rest false h2) _
    · rcases hasNS_append_elim h with h1 | h1
      · have hne : pyStrip s0 ≠ [] := fun hh => not_hasNS_of_pyStrip_eq_nil hh h1
        rw [if_pos hne]
        simp only [List.flatten_cons]
        refine hasNS_append_left ?_ _
        split
        · exact hasNS_capAlone2 h1
        · exact h1
      · have hrest : hasNS (s1 :: rest).flatten := by
          simp only [List.flatten_cons]
          exact h1
        split
        · simp only [List.flatten_cons]
          exact hasNS_append_right (hasNS_joinLoop2 (s1 :: rest) false hrest) _
        · exact hasNS_joinLoop2 (s1 :: rest) false hrest

theorem hasNS_pyStrip {l : List Char} (h : hasNS l) : hasNS (pyStrip l) := by
  obtain ⟨c, hc, hns⟩ := h
  refine ⟨c, ?_, hns⟩
  have h1 : c ∈ stripL l := by
    have hsplit := List.takeWhile_append_dropWhile (fun c => pySpace c) l
    rw [← hsplit] at hc
    rcases List.mem_append.1 hc with h1 | h1
    · have := List.mem_takeWhile_imp' h1
      rw [this] at hns
      cases hns
    · exact h1
  unfold pyStrip
  rw [List.mem_reverse]
  have hsplit := List.takeWhile_append_dropWhile (fun c => pySpace c)
    (stripL l).reverse
  have h2 : c ∈ (stripL l).reverse := List.mem_reverse.2 h1
  rw [← hsplit] at h2
  rcases List.mem_append.1 h2 with h3 | h3
  · have := List.mem_takeWhile_imp' h3
    rw [this] at hns
    cases hns
  · exact h3

theorem hasNS_collapseGo :
    ∀ (l runRev : List Char), hasNS l → hasNS (collapseGo runRev l)
  | [], runRev, h => absurd rfl (hasNS_ne_nil h)
  | c :: rest, runRev, h => by
    rw [show collapseGo runRev (c :: rest) =
      (if pySpace c then collapseGo (c :: runRev) rest
       else flushRun runRev ++ c :: collapseGo [] rest) from rfl]
    split
    · rename_i hc
      obtain ⟨d, hd, hns⟩ := h
      rcases List.mem_cons.1 hd with h1 | h1
      · subst h1
        rw [hc] at hns
        cases hns
      · exact hasNS_collapseGo rest (c :: runRev) ⟨d, h1, hns⟩
    · rename_i hc
      simp only [Bool.not_eq_true] at hc
      exact hasNS_append_right ⟨c, List.mem_cons_self _ _, hc⟩ _

theorem hasNS_collapseNl {l : List Char} (h : hasNS l) : hasNS (collapseNl l) :=
  hasNS_collapseGo l [] h

theorem hasNS_procPara {p : List Char} (h : hasNS p) : hasNS (procPara p) := by
  unfold procPara
  have h1 : hasNS (collapseNl (pyStrip p)) := hasNS_collapseNl (hasNS_pyStrip h)
  rw [← splitSents_flatten (collapseNl (pyStrip p))] at h1
  have h2 := hasNS_joinLoop2 _ true h1
  exact hasNS_condUp _ h2

theorem hasNS_mem_joinWith {sep : List Char} {parts : List (List Char)}
    {p : List Char} (hp : p ∈ parts) (h : hasNS p) :
    hasNS (joinWith sep parts) := by
  induction parts with
  | nil => cases hp
  | cons x rest ih =>
    cases rest with
    | nil =>
      rcases List.mem_cons.1 hp with h1 | h1
      · subst h1
        exact h
      · cases h1
    | cons y t =>
      rw [show joinWith sep (x :: y :: t) =
        x ++ sep ++ joinWith sep (y :: t) from rfl]
      rcases List.mem_cons.1 hp with h1 | h1
      · subst h1
        exact hasNS_append_left (hasNS_append_left h sep) _
      · exact hasNS_append_right (ih h1) _

theorem hasNS_joinWith_elim {sep : List Char} {parts : List (List Char)}
    (h : hasNS (joinWith sep parts)) :
    hasNS sep ∨ ∃ p ∈ parts, hasNS p := by
  induction parts with
  | nil => exact absurd rfl (hasNS_ne_nil h)
  | cons x rest ih =>
    cases rest with
    | nil =>
      exact Or.inr ⟨x, List.mem_cons_self _ _, h⟩
    | cons y t =>
      rw [show joinWith sep (x :: y :: t) =
        x ++ sep ++ joinWith sep (y :: t) from rfl] at h
      rcases hasNS_append_elim h with h1 | h1
      · rcases hasNS_append_elim h1 with h2 | h2
        · exact Or.inr ⟨x, List.mem_cons_self _ _, h2⟩
        · exact Or.inl h2
      · rcases ih h1 with h2 | ⟨p, hp, hns⟩
        · exact Or.inl h2
        · exact Or.inr ⟨p, List.mem_cons_of_mem _ hp, hns⟩

theorem caseEq_hasNS {a b : List Char} (hab : CaseEq a b) (h : hasNS a) :
    hasNS b := by
  induction hab with
  | nil => exact h
  | @cons c d a' b' h1 h2 h3 hr ih =>
    obtain ⟨x, hx, hns⟩ := h
    rcases List.mem_cons.1 hx with he | he
    · subst he
      exact ⟨d, List.mem_cons_self _ _, by rw [← h3]; exact hns⟩
    · obtain ⟨y, hy, hyns⟩ := ih ⟨x, he, hns⟩
      exact ⟨y, List.mem_cons_of_mem _ hy, hyns⟩

theorem hasNS_subWordGo {w r : List Char} (hwr : CaseEq w r) (both : Bool) :
    ∀ (fuel : Nat) (l : List Char) (prevL : Bool), hasNS l →
      hasNS (subWordGo w r both fuel prevL l) := by
  intro fuel
  induction fuel with
  | zero => intro l prevL h; exact h
  | succ fuel ih =>
    intro l prevL h
    cases l with
    | nil => exact absurd rfl (hasNS_ne_nil h)
    | cons c cs =>
      rw [show subWordGo w r both (fuel + 1) prevL (c :: cs) =
        (if w.isPrefixOf (c :: cs) ∧ prevL = false ∧
            (both = true → headLetter ((c :: cs).drop w.length) = false) then
          r ++ subWordGo w r both fuel
            (match w.getLast? with | some d => letterAscii d | none => prevL)
            ((c :: cs).drop w.length)
        else c :: subWordGo w r both fuel (letterAscii c) cs) from rfl]
      split
      · rename_i hcond
        have hdec := isPrefixOf_decomp hcond.1
        rw [hdec] at h
        rcases hasNS_append_elim h with h1 | h1
        · exact hasNS_append_left (caseEq_hasNS hwr h1) _
        · exact hasNS_append_right (ih _ _ h1) _
      · obtain ⟨d, hd, hns⟩ := h
        rcases List.mem_cons.1 hd with h1 | h1
        · subst h1
          exact ⟨d, List.mem_cons_self _ _, hns⟩
        · obtain ⟨y, hy, hyns⟩ := ih cs (letterAscii c) ⟨d, h1, hns⟩
          exact ⟨y, List.mem_cons_of_mem _ hy, hyns⟩

theorem hasNS_properPasses {t : List Char} (h : hasNS t) :
    hasNS (properPasses t) := by
  unfold properPasses
  have hB : ∀ (pairs : List (List Char × List Char)),
      (∀ pr ∈ pairs, CaseEq pr.1 pr.2) → ∀ t, hasNS t →
      hasNS (pairs.foldl (fun acc wr => subWordB wr.1 wr.2 acc) t) := by
    intro pairs hp
    induction pairs with
    | nil => intro t ht; exact ht
    | cons pr rest ih =>
      intro t ht
      rw [List.foldl_cons]
      exact ih (fun x hx => hp x (List.mem_cons_of_mem pr hx)) _
        (hasNS_subWordGo (hp pr (List.mem_cons_self pr rest)) true t.length t
          false ht)
  have hP : ∀ (pairs : List (List Char × List Char)),
      (∀ pr ∈ pairs, CaseEq pr.1 pr.2) → ∀ t, hasNS t →
      hasNS (pairs.foldl (fun acc wr => subWordP wr.1 wr.2 acc) t) := by
    intro pairs hp
    induction pairs with
    | nil => intro t ht; exact ht
    | cons pr rest ih =>
      intro t ht
      rw [List.foldl_cons]
      exact ih (fun x hx => hp x (List.mem_cons_of_mem pr hx)) _
        (hasNS_subWordGo (hp pr (List.mem_cons_self pr rest)) false t.length t
          false ht)
  exact hP gazetteerP gazetteerP_caseEq _
    (hB gazetteerB gazetteerB_caseEq t h)

theorem hasNS_normalizeBody {p : List Char} (h : hasNS p) :
    hasNS (normalizeBody p) := by
  unfold normalizeBody
  apply hasNS_properPasses
  have h1 : hasNS (joinLoop1 (splitSents p)).flatten := by
    apply hasNS_joinLoop1
    rw [splitSents_flatten]
    exact h
  rw [← joinWith_splitNN (joinLoop1 (splitSents p)).flatten] at h1
  rcases hasNS_joinWith_elim h1 with h2 | ⟨q, hq, hqns⟩
  · exfalso
    obtain ⟨c, hc, hns⟩ := h2
    have : pySpace c = true := by
      rcases List.mem_cons.1 hc with h3 | h3
      · subst h3; rfl
      · rcases List.mem_cons.1 h3 with h4 | h4
        · subst h4; rfl
        · cases h4
    rw [this] at hns
    cases hns
  · have hkeep : pyStrip q ≠ [] := fun hh => not_hasNS_of_pyStrip_eq_nil hh hqns
    apply hasNS_mem_joinWith
      (List.mem_filterMap.2 ⟨q, hq, by rw [if_pos hkeep]⟩)
    exact hasNS_procPara hqns

theorem formatResponseText_ne_nil {text : List Char} (h : hasNS text) :
    formatResponseText text ≠ [] := by
  unfold formatResponseText
  rw [if_neg (hasNS_ne_nil h)]
  obtain ⟨hj1, _⟩ := headerSplit_cases text
  obtain ⟨hj2, _⟩ := sourceSplit_cases (headerSplit text).2
  rw [← hj1, ← hj2] at h
  intro h0
  rw [List.append_assoc, List.append_eq_nil] at h0
  obtain ⟨hh, h0⟩ := h0
  rw [List.append_eq_nil] at h0
  obtain ⟨hb, hs⟩ := h0
  rcases hasNS_append_elim h with h1 | h1
  · rw [hh] at h1
    exact absurd rfl (hasNS_ne_nil h1)
  · rcases hasNS_append_elim h1 with h2 | h2
    · exact hasNS_ne_nil (hasNS_normalizeBody h2) hb
    · exact absurd rfl (by rw [hs] at h2; exact hasNS_ne_nil h2)

/-! ## Sample data used by witnesses and counterexamples -/

/-- A sample clean web item. -/
def wSample : WebItem :=
  { title := some (strL "Quake Report"), source := some (strL "BBC"),
    url := some (strL "u"), content := some (strL "Strong quake hit the coast.") }

/-- A second sample clean web item. -/
def wSample2 : WebItem :=
  { title := some (strL "Relief Update"), source := some (strL "UN"),
    url := some (strL "u2"), content := some (strL "Aid is arriving.") }

/-- A sample database item carrying a title and text. -/
def dSample (n : Nat) : DbItem :=
  { title := some (strL "Event" ++ natStr n), summary := none,
    text := some (strL "db text " ++ natStr n), location := none,
    category := none, date := none }

/-! ## Claim C2 — losslessness of normalization -/

/-- C2.  Normalization is lossless: for every input string, the normalized
output of `_format_response_text` has exactly the same multiset of
case-folded ASCII-alphanumeric word tokens as the input; words are neither
deleted nor duplicated, only whitespace, punctuation spacing and letter case
change. -/
theorem claim_C2_normalization_lossless (l : List Char) :
    (↑(tokensCI (formatResponseText l)) : Multiset (List Nat)) =
      (↑(tokensCI l) : Multiset (List Nat)) := by
  rw [tokensCI_formatResponseText]

/-! ## Claim C6 — sentence-boundary resilience (refuted) -/

/-- C6 counterexample.  The claim says the normalizer treats a terminator
immediately followed by a capital letter as a sentence boundary and that
`"Strikes continue.Officials say..."` normalizes to
`"Strikes continue. Officials say..."`.  It does not: the splitting regex
`([.!?][\s\n]+)` requires whitespace after the terminator, so no space is
inserted. -/
theorem claim_C6_counterexample :
    formatResponseText (strL "Strikes continue.Officials say...") ≠
      strL "Strikes continue. Officials say..." := by
  decide

/-- C6 amended.  The normalizer recognizes a sentence boundary only when the
terminator is followed by whitespace; a terminator immediately followed by a
capital letter is left untouched, and in particular
`"Strikes continue.Officials say..."` normalizes to itself (no space is
inserted and no re-capitalization occurs). -/
theorem claim_C6_amended :
    formatResponseText (strL "Strikes continue.Officials say...") =
      strL "Strikes continue.Officials say..." := by
  decide

/-! ## Claim C3 — evidence priority in the composed context -/

/-- The web part of the generation context, spec side: the content string of
every web item, in rank order. -/
def webContentL (web : List WebItem) : List Char :=
  (web.map (fun d =>
    if optFull d.content then d.content.getD [] ++ strL " \n\n" else [])).flatten

/-- The database part of the generation context, spec side: the content
string (`text` else `summary`) of each item, in rank order. -/
def dbContentL (db : List DbItem) : List Char :=
  (db.map (fun e =>
    if optFull e.text then e.text.getD [] ++ strL " \n\n"
    else if optFull e.summary then e.summary.getD [] ++ strL " \n\n"
    else [])).flatten

theorem foldl_webContentStep (web : List WebItem) (acc : List Char) :
    web.foldl webContentStep acc = acc ++ webContentL web := by
  induction web generalizing acc with
  | nil => simp [webContentL]
  | cons d rest ih =>
    rw [List.foldl_cons, ih]
    unfold webContentL webContentStep
    rw [List.map_cons, List.flatten_cons]
    split
    · simp
    · simp

theorem foldl_dbContentStep (db : List DbItem) (acc : List Char) :
    db.foldl dbContentStep acc = acc ++ dbContentL db := by
  induction db generalizing acc with
  | nil => simp [dbContentL]
  | cons e rest ih =>
    rw [List.foldl_cons, ih]
    unfold dbContentL dbContentStep
    rw [List.map_cons, List.flatten_cons]
    split
    · simp
    · split
      · simp
      · simp

/-- C3.  Evidence priority: when the bundle has web items and database
items, the generation context assembled by `_generate_web_based_response` is
exactly the web items' content strings (in rank order) followed by the
content strings of the first three database items (in rank order); database
items beyond the third never contribute (the context only depends on
`db.take 3`). -/
theorem claim_C3_evidence_priority (web : List WebItem) (db : List DbItem)
    (hw : web ≠ []) (hdb : db ≠ []) :
    buildAllContent web db = webContentL web ++ dbContentL (db.take 3) ∧
      buildAllContent web db = buildAllContent web (db.take 3) := by
  constructor
  · unfold buildAllContent
    rw [if_pos hdb]
    rw [foldl_dbContentStep, foldl_webContentStep]
    simp
  · unfold buildAllContent
    rw [if_pos hdb, if_pos (by
      intro h
      rw [List.take_eq_nil_iff] at h
      rcases h with h | h
      · cases h
      · exact hdb h)]
    rw [List.take_take]
    norm_num

/-- C3 witness at a concrete bundle of two web items and four database
items. -/
theorem claim_C3_witness :
    buildAllContent [wSample, wSample2] [dSample 1, dSample 2, dSample 3, dSample 4] =
      webContentL [wSample, wSample2] ++
        dbContentL ([dSample 1, dSample 2, dSample 3, dSample 4].take 3) ∧
    buildAllContent [wSample, wSample2] [dSample 1, dSample 2, dSample 3, dSample 4] =
      buildAllContent [wSample, wSample2]
        ([dSample 1, dSample 2, dSample 3, dSample 4].take 3) :=
  claim_C3_evidence_priority [wSample, wSample2] _ (by simp) (by simp)

/-! ## Claim C9 — text search is semantic (embedding + vector) search -/

/-- C9.  `search_by_text(query, limit)` returns exactly
`search_by_vector(embed(query), limit)`: the text-search fallback is the
same semantic search, not literal text matching (whenever the embedding of
the query succeeds; both sides also agree, as `[]`, when the database is
unavailable). -/
theorem claim_C9_text_search_refinement (s : DbState)
    (er : Except Unit (List Int)) (v : List Int) (limit : Nat)
    (h : er = .ok v) :
    searchByText s er limit = searchByVector s v limit := by
  subst h
  unfold searchByText
  by_cases ha : s.availB = false
  · rw [if_pos ha]
    unfold searchByVector
    rw [if_pos ha]
  · rw [if_neg ha]

/-- A sample database state for the witnesses. -/
def sDbSample : DbState :=
  { availB := true, agg := fun _ => .ok [], findRaises := false,
    allDocs := [dSample 1, dSample 2] }

/-- C9 witness at a concrete database state and embedding. -/
theorem claim_C9_witness :
    searchByText sDbSample (.ok [1, 2]) 5 = searchByVector sDbSample [1, 2] 5 :=
  claim_C9_text_search_refinement sDbSample (.ok [1, 2]) [1, 2] 5 rfl

/-! ## Claim C10 — the regular-find fallback inside `search_by_vector` -/

/-- C10.  When the aggregation (vector index search) returns no matches or
raises, `search_by_vector` returns `find().limit(limit)` — the first `limit`
documents of the collection in natural order (all of them for `limit = 0`,
per Mongo semantics) — provided the database is available and `find` does
not raise; and the result is empty exactly when the database is unavailable,
or the fallback was taken and `find` raised or the collection is empty.
Hence the caller-level text-search fallback (triggered by an empty result)
fires only when the collection is empty or unreachable. -/
theorem mongoFindLimit_eq_nil (docs : List DbItem) (n : Nat) :
    mongoFindLimit docs n = [] ↔ docs = [] := by
  unfold mongoFindLimit
  split
  · exact Iff.rfl
  · rw [List.take_eq_nil_iff]
    rename_i hn
    constructor
    · intro h
      rcases h with h | h
      · exact absurd h hn
      · exact h
    · intro h
      exact Or.inr h

theorem claim_C10_find_fallback (s : DbState) (v : List Int) (limit : Nat) :
    ((s.agg (resizeVec v) = .ok [] ∨ s.agg (resizeVec v) = .error ()) →
      s.findRaises = false → s.availB = true →
      searchByVector s v limit = mongoFindLimit s.allDocs limit) ∧
    (searchByVector s v limit = [] ↔
      (s.availB = false ∨
        ((s.agg (resizeVec v) = .ok [] ∨ s.agg (resizeVec v) = .error ()) ∧
          (s.findRaises = true ∨ s.allDocs = [])))) := by
  have hnorm : searchByVector s v limit =
      if s.availB = false then []
      else match s.agg (resizeVec v) with
        | .ok rs =>
          if rs = [] then
            (if s.findRaises then [] else mongoFindLimit s.allDocs limit)
          else rs
        | .error _ =>
          if s.findRaises then [] else mongoFindLimit s.allDocs limit := by
    unfold searchByVector mongoFind
    cases s.availB with
    | false => rfl
    | true =>
      cases hagg : s.agg (resizeVec v) with
      | ok rs =>
        cases rs with
        | nil => cases s.findRaises <;> rfl
        | cons x xs => rfl
      | error e => cases s.findRaises <;> rfl
  constructor
  · intro hagg hfind havail
    rw [hnorm, if_neg (by rw [havail]; intro h; cases h)]
    rcases hagg with h | h <;> rw [h] <;> simp [hfind]
  · rw [hnorm]
    by_cases havail : s.availB = false
    · rw [if_pos havail]
      simp [havail]
    · rw [if_neg havail]
      cases hagg : s.agg (resizeVec v) with
      | ok rs =>
        cases rs with
        | nil =>
          cases hfr : s.findRaises with
          | true => simp [havail]
          | false => simp [havail, hfr, mongoFindLimit_eq_nil]
        | cons x xs => simp [havail]
      | error e =>
        obtain rfl : e = () := rfl
        cases hfr : s.findRaises with
        | true => simp [havail]
        | false => simp [havail, hfr, mongoFindLimit_eq_nil]

/-- C10 witness: with an available database whose aggregation returns no
matches and a working `find`, `search_by_vector` returns the first `limit`
documents. -/
theorem claim_C10_witness :
    searchByVector sDbSample [1, 2] 1 = mongoFindLimit sDbSample.allDocs 1 :=
  (claim_C10_find_fallback sDbSample [1, 2] 1).1 (Or.inl rfl) rfl rfl

/-! ## Claim C4 — the endpoint's aggregation policy -/

/-- C4.  The `/api/llm-response` endpoint calls the web source with
`max_results = 5` exactly when the query matches the hard-coded
California-wildfire pattern and with `3` otherwise; it skips the database
lookup iff the pattern matched and the web source returned at least two
items; and the database lookup itself is a vector search whose empty result
falls back to the text search. -/
theorem claim_C4_aggregator_policy (c : Collab) (q : List Char) :
    ((endpointGather c q).kUsed = if isCalWildfire q then 5 else 3) ∧
    ((endpointGather c q).dbUsed = false ↔
      (isCalWildfire q = true ∧ 2 ≤ (endpointGather c q).webData.length)) ∧
    ((endpointGather c q).dbResults =
      if (endpointGather c q).dbUsed then endpointDbResults c else []) ∧
    (∀ v, c.connectRaises = false → c.embedQ = .ok v →
      endpointDbResults c =
        (if searchByVector c.db v 5 = [] then searchByText c.db c.embedQ 5
         else searchByVector c.db v 5)) := by
  refine ⟨?_, ?_, ?_, ?_⟩
  · rfl
  · show (!isCalWildfire q ||
      decide ((endpointGather c q).webData.length < 2)) = false ↔ _
    cases hic : isCalWildfire q with
    | false => simp
    | true =>
      simp only [Bool.not_true, Bool.false_or, decide_eq_false_iff_not,
        Nat.not_lt, true_and]
  · show (if ((endpointGather c q).dbUsed : Bool) then endpointDbResults c
      else []) = _
    rfl
  · intro v hconn hembed
    unfold endpointDbResults
    rw [hconn, hembed]
    simp only [Bool.false_eq_true, if_false]

/-- A sample collaborator bundle for witnesses. -/
def cSample : Collab :=
  { scrapeK := fun _ => .ok [wSample, wSample2], embedQ := .ok [1],
    db := sDbSample, connectRaises := false, modelLoadOk := false,
    genFn := fun _ => .error (), sumLoadOk := false,
    sumFn := fun _ => .error () }

/-- C4 witness: at the query `"california wildfire update"` the endpoint
widens the web cap to 5. -/
theorem claim_C4_witness :
    (endpointGather cSample (strL "california wildfire update")).kUsed = 5 := by
  rw [(claim_C4_aggregator_policy cSample
    (strL "california wildfire update")).1]
  decide

/-! ## Occurrence lemmas for `splitFirst` / `pyContains` -/

theorem splitFirst_isSome_of_isPrefixOf {sep l : List Char}
    (h : sep.isPrefixOf l = true) : (splitFirst sep l).isSome = true := by
  cases l with
  | nil =>
    unfold splitFirst
    rw [if_pos h]
    rfl
  | cons c cs =>
    unfold splitFirst
    rw [if_pos h]
    rfl

theorem splitFirst_isSome_of_occurrence (sep : List Char) :
    ∀ (a b : List Char), (splitFirst sep (a ++ sep ++ b)).isSome = true := by
  intro a
  induction a with
  | nil =>
    intro b
    rw [List.nil_append]
    exact splitFirst_isSome_of_isPrefixOf
      (List.isPrefixOf_iff_prefix.2 ⟨b, rfl⟩)
  | cons x xs ih =>
    intro b
    simp only [List.cons_append]
    rw [show splitFirst sep (x :: (xs ++ sep ++ b)) =
      (if sep.isPrefixOf (x :: (xs ++ sep ++ b)) then
        some ([], (x :: (xs ++ sep ++ b)).drop sep.length)
      else match splitFirst sep (xs ++ sep ++ b) with
        | some (a2, b2) => some (x :: a2, b2)
        | none => none) from rfl]
    split
    · rfl
    · have hsome := ih b
      cases hsp : splitFirst sep (xs ++ sep ++ b) with
      | none => rw [hsp] at hsome; cases hsome
      | some p => obtain ⟨p1, p2⟩ := p; rfl

theorem pyContains_of_occurrence (sep a b : List Char) :
    pyContains sep (a ++ sep ++ b) = true :=
  splitFirst_isSome_of_occurrence sep a b

theorem splitFirst_eq_none_of_head_not_mem {d : Char} {sep' l : List Char}
    (h : d ∉ l) : splitFirst (d :: sep') l = none := by
  induction l with
  | nil => rfl
  | cons c cs ih =>
    unfold splitFirst
    have hdc : ¬ ((d :: sep').isPrefixOf (c :: cs) = true) := by
      intro hp
      have : d = c := by
        have := List.isPrefixOf_iff_prefix.1 hp
        obtain ⟨t, ht⟩ := this
        rw [List.cons_append] at ht
        exact (List.cons.injEq _ _ _ _ ▸ ht).1
      exact h (this ▸ List.mem_cons_self d cs)
    rw [if_neg hdc, ih (fun hm => h (List.mem_cons_of_mem c hm))]

theorem pyContains_eq_false_of_head_not_mem {d : Char} {sep' l : List Char}
    (h : d ∉ l) : pyContains (d :: sep') l = false := by
  unfold pyContains
  rw [splitFirst_eq_none_of_head_not_mem h]
  rfl

/-! ## Claim C5 — the empty-evidence terminal state (corrected) -/

/-- C5 counterexample data: the retry scraper inside `generate_response`
finds a web item, and the generation model echoes its prompt and adds
content. -/
def c5cex : Collab :=
  { scrapeK := fun _ => .ok
      [{ title := some (strL "T"), source := some (strL "S"), url := none,
         content := some (strL "c") }],
    embedQ := .ok [], db := sDbSample, connectRaises := false,
    modelLoadOk := true, genFn := fun p => .ok (p ++ strL "A."),
    sumLoadOk := false, sumFn := fun _ => .error () }

set_option maxRecDepth 100000

/-- C5 counterexample.  The claim says every call with both evidence lists
empty returns the canned zero-citation response without a generation call.
It does not: `generate_response` first retries the web scraper (with
`max_results=5`); when that retry returns an item, a full web-based
generation runs and the result carries a citation block. -/
theorem claim_C5_counterexample :
    generateResponse c5cex (strL "q") [] [] ≠ cannedNoInfo (strL "q") ∧
      pyContains srcMarker (generateResponse c5cex (strL "q") [] []) = true := by
  constructor
  · decide
  · decide

/-- C5 amended.  When both evidence lists are empty AND the web-scraper
retry performed inside `generate_response` also yields nothing (returns an
empty list or raises), the result is exactly the canned no-information
response: it is non-empty, contains the original query text, is produced
without consulting the generation or summarization collaborators (the
result does not depend on them), and — for queries without asterisks —
carries no `**Sources:**` marker, i.e. zero citations. -/
theorem claim_C5_empty_evidence (c : Collab) (q : List Char)
    (hretry : c.scrapeK 5 = .ok [] ∨ c.scrapeK 5 = .error ()) :
    generateResponse c q [] [] = cannedNoInfo q ∧
      generateResponse c q [] [] ≠ [] ∧
      pyContains q (generateResponse c q [] []) = true ∧
      ('*' ∉ q → pyContains srcMarker (generateResponse c q [] []) = false) := by
  have hmain : generateResponse c q [] [] = cannedNoInfo q := by
    unfold generateResponse
    rcases hretry with h | h <;> simp [h]
  refine ⟨hmain, ?_, ?_, ?_⟩
  · rw [hmain]
    unfold cannedNoInfo
    intro h0
    rw [List.append_eq_nil] at h0
    obtain ⟨h1, _⟩ := h0
    rw [List.append_eq_nil] at h1
    obtain ⟨h2, _⟩ := h1
    cases h2
  · rw [hmain]
    unfold cannedNoInfo
    exact pyContains_of_occurrence q _ _
  · intro hq
    rw [hmain]
    have hstar : '*' ∉ cannedNoInfo q := by
      unfold cannedNoInfo
      intro hm
      rcases List.mem_append.1 hm with h1 | h1
      · rcases List.mem_append.1 h1 with h2 | h2
        · revert h2
          decide
        · exact hq h2
      · revert h1
        decide
    exact pyContains_eq_false_of_head_not_mem hstar

/-! ## Claim C7 — no exception propagation, non-empty results (corrected) -/

/-- The generation collaborator is well-behaved: whenever it returns
normally, its output minus the echoed prompt still has visible (non-
whitespace) content.  (The counterexample below shows the pipeline can
return an empty string when this fails, e.g. when the model echoes its
prompt exactly.) -/
def GoodGen (c : Collab) : Prop :=
  ∀ p r, c.genFn p = .ok r →
    hasNS (if p.isPrefixOf r then pyStrip (r.drop p.length) else r)

theorem hasNS_srcMarkerNl : hasNS srcMarkerNl := by
  refine ⟨'*', ?_, by decide⟩
  show '*' ∈ strL "\n\n**Sources:**\n"
  decide

theorem hasNS_infoHeader_append (q s : List Char) :
    hasNS (infoHeader q ++ s) := by
  refine ⟨'*', ?_, by decide⟩
  unfold infoHeader
  apply List.mem_append.2
  apply Or.inl
  apply List.mem_append.2
  apply Or.inl
  apply List.mem_append.2
  apply Or.inl
  show '*' ∈ strL "**Information about "
  decide

theorem hasNS_attachSources {body : List Char} (h : hasNS body)
    (sources : List (List Char)) : hasNS (attachSources body sources) := by
  unfold attachSources
  split
  · exact hasNS_append_left (hasNS_append_left h _) _
  · exact h

theorem hasNS_webFallback (c : Collab) (q allContent : List Char)
    (sources : List (List Char)) :
    hasNS (webFallback c q allContent sources) := by
  unfold webFallback
  split
  · cases hsum : (if c.sumLoadOk then c.sumFn allContent else .error ()) with
    | ok s => exact hasNS_attachSources (hasNS_infoHeader_append q s) sources
    | error e => exact hasNS_infoHeader_append q _
  · exact hasNS_infoHeader_append q _

theorem hasNS_genWebBased (c : Collab) (q : List Char) (web : List WebItem)
    (db : List DbItem) (hgen : GoodGen c) :
    hasNS (genWebBased c q web db) := by
  simp only [genWebBased]
  split
  · split
    · rename_i r hg
      exact hasNS_attachSources (hgen _ r hg) _
    · exact hasNS_webFallback c q _ _
  · exact hasNS_webFallback c q _ _

theorem hasNS_dbTitlesResp (q : List Char) (ctx : List DbItem) :
    hasNS (dbTitlesResp q ctx) := by
  refine ⟨'I', ?_, by decide⟩
  unfold dbTitlesResp
  apply List.mem_append.2
  apply Or.inl
  apply List.mem_append.2
  apply Or.inl
  apply List.mem_append.2
  apply Or.inl
  show 'I' ∈ strL "I found the following information about '"
  decide

theorem hasNS_dbStructured (q : List Char) (ctx : List DbItem) :
    hasNS (dbStructured q ctx) := by
  unfold dbStructured
  exact hasNS_infoHeader_append q _

theorem hasNS_dbFallback (c : Collab) (q : List Char) (ctx : List DbItem) :
    hasNS (dbFallback c q ctx) := by
  simp only [dbFallback]
  split
  · split
    · cases hsum : c.sumFn (ctx.foldl dbContentStep []) with
      | ok s => exact hasNS_infoHeader_append q s
      | error e => exact hasNS_dbTitlesResp q ctx
    · exact hasNS_dbStructured q ctx
  · exact hasNS_dbStructured q ctx

theorem hasNS_genDbBased (c : Collab) (q : List Char) (ctx : List DbItem)
    (hgen : GoodGen c) : hasNS (genDbBased c q ctx) := by
  unfold genDbBased
  split
  · split
    · rename_i r hg
      exact hgen _ r hg
    · exact hasNS_dbFallback c q ctx
  · exact hasNS_dbFallback c q ctx

theorem cannedNoInfo_ne_nil (q : List Char) : cannedNoInfo q ≠ [] := by
  unfold cannedNoInfo
  intro h0
  rw [List.append_eq_nil] at h0
  obtain ⟨h1, _⟩ := h0
  rw [List.append_eq_nil] at h1
  obtain ⟨h2, _⟩ := h1
  cases h2

theorem cannedNoInfo2_ne_nil (q : List Char) : cannedNoInfo2 q ≠ [] := by
  unfold cannedNoInfo2
  intro h0
  rw [List.append_eq_nil] at h0
  obtain ⟨h1, _⟩ := h0
  rw [List.append_eq_nil] at h1
  obtain ⟨h2, _⟩ := h1
  cases h2

theorem generateResponse_ne_nil (c : Collab) (q : List Char)
    (ctx : List DbItem) (web : List WebItem) (hgen : GoodGen c) :
    generateResponse c q ctx web ≠ [] := by
  simp only [generateResponse]
  split
  · split
    · exact cannedNoInfo_ne_nil q
    · split
      · exact formatResponseText_ne_nil (hasNS_genWebBased c q _ ctx hgen)
      · split
        · exact formatResponseText_ne_nil (hasNS_genDbBased c q ctx hgen)
        · exact cannedNoInfo2_ne_nil q
  · split
    · exact formatResponseText_ne_nil (hasNS_genWebBased c q _ ctx hgen)
    · split
      · exact formatResponseText_ne_nil (hasNS_genDbBased c q ctx hgen)
      · exact cannedNoInfo2_ne_nil q

/-- C7 amended.  The end-to-end answer operation and the endpoint handler
are total for every collaborator behavior (all collaborator exceptions are
caught; this is the shape of the embedding of `find_and_respond` and
`llm_response`), and the returned response string is non-empty whenever the
generation collaborator, where it succeeds, leaves visible content after
prompt-echo stripping.  (Without that proviso the string can be empty — see
the counterexample.) -/
theorem claim_C7_no_propagation (c : Collab) (q : List Char)
    (maxResults : Nat) (hgen : GoodGen c) :
    findAndRespond c q maxResults ≠ [] ∧
      (llmEndpoint c q).responseE ≠ [] := by
  constructor
  · unfold findAndRespond
    cases c.embedQ with
    | error e =>
      unfold errMsgFind
      intro h0
      rw [List.append_eq_nil] at h0
      obtain ⟨h1, _⟩ := h0
      rw [List.append_eq_nil] at h1
      obtain ⟨h2, _⟩ := h1
      cases h2
    | ok v => exact generateResponse_ne_nil c q _ _ hgen
  · show (if (endpointGather c q).webData ≠ [] ∨
        (endpointGather c q).dbResults ≠ [] then
      generateResponse c q (endpointGather c q).dbResults
        (endpointGather c q).webData
      else strL "I couldn't find any information about your query. Please try a different question or check your internet connection.") ≠ []
    split
    · exact generateResponse_ne_nil c q _ _ hgen
    · decide

/-- C7 witness at a concrete collaborator bundle whose generation
collaborator always raises (the hypothesis holds vacuously). -/
theorem claim_C7_witness :
    findAndRespond cSample (strL "quake") 5 ≠ [] ∧
      (llmEndpoint cSample (strL "quake")).responseE ≠ [] :=
  claim_C7_no_propagation cSample (strL "quake") 5
    (fun p r h => Except.noConfusion h)

/-- C7 counterexample data: the scraper returns one item with no usable
fields and the model echoes its prompt exactly. -/
def c7cex : Collab :=
  { scrapeK := fun _ => .ok
      [{ title := none, source := none, url := none, content := none }],
    embedQ := .ok [],
    db := { availB := false, agg := fun _ => .ok [], findRaises := false,
            allDocs := [] },
    connectRaises := false, modelLoadOk := true, genFn := fun p => .ok p,
    sumLoadOk := false, sumFn := fun _ => .error () }

/-- C7 counterexample.  The claim says the answer operation always returns
a non-empty response string.  It does not: when the scraped web item has no
content or title/source keys and the generation model echoes its prompt
exactly (returning no new tokens), the echo-stripping leaves an empty
string, no citation block is appended, and `find_and_respond` returns the
empty string. -/
theorem claim_C7_counterexample :
    findAndRespond c7cex (strL "q") 5 = [] := by
  decide

/-! ## Splitting a composed response at the citation marker -/

theorem splitFirst_append_of_head_not_mem {d : Char} {sep' : List Char} :
    ∀ {a : List Char} (x : List Char), d ∉ a →
      splitFirst (d :: sep') (a ++ x) =
        (splitFirst (d :: sep') x).map (fun p => (a ++ p.1, p.2))
  | [], x, _ => by
    rw [List.nil_append]
    cases splitFirst (d :: sep') x with
    | none => rfl
    | some p => obtain ⟨p1, p2⟩ := p; rfl
  | c :: cs, x, h => by
    rw [List.cons_append]
    rw [show splitFirst (d :: sep') (c :: (cs ++ x)) =
      (if (d :: sep').isPrefixOf (c :: (cs ++ x)) then
        some ([], (c :: (cs ++ x)).drop (d :: sep').length)
      else match splitFirst (d :: sep') (cs ++ x) with
        | some (a2, b2) => some (c :: a2, b2)
        | none => none) from rfl]
    rw [if_neg (by
      intro hp
      obtain ⟨t, ht⟩ := List.isPrefixOf_iff_prefix.1 hp
      rw [List.cons_append] at ht
      exact h ((List.cons.injEq _ _ _ _ ▸ ht).1 ▸ List.mem_cons_self d cs))]
    rw [splitFirst_append_of_head_not_mem x (fun hm => h (List.mem_cons_of_mem c hm))]
    cases splitFirst (d :: sep') x with
    | none => rfl
    | some p => obtain ⟨p1, p2⟩ := p; rfl

theorem splitFirst_self {sep : List Char} (hne : sep ≠ []) (b : List Char) :
    splitFirst sep (sep ++ b) = some ([], b) := by
  cases sep with
  | nil => exact absurd rfl hne
  | cons d ds =>
    rw [List.cons_append]
    rw [show splitFirst (d :: ds) (d :: (ds ++ b)) =
      (if (d :: ds).isPrefixOf (d :: (ds ++ b)) then
        some ([], (d :: (ds ++ b)).drop (d :: ds).length)
      else match splitFirst (d :: ds) (ds ++ b) with
        | some (a2, b2) => some (d :: a2, b2)
        | none => none) from rfl]
    rw [if_pos (List.isPrefixOf_iff_prefix.2 ⟨b, by simp⟩)]
    rw [show (d :: (ds ++ b)) = (d :: ds) ++ b by simp]
    rw [List.drop_left]

theorem mem_joinWith_elim {sep : List Char} {c : Char} :
    ∀ {parts : List (List Char)}, c ∈ joinWith sep parts →
      c ∈ sep ∨ ∃ p ∈ parts, c ∈ p
  | [], h => by cases h
  | [x], h => Or.inr ⟨x, List.mem_cons_self _ _, h⟩
  | x :: y :: t, h => by
    rw [show joinWith sep (x :: y :: t) =
      x ++ sep ++ joinWith sep (y :: t) from rfl] at h
    rcases List.mem_append.1 h with h1 | h1
    · rcases List.mem_append.1 h1 with h2 | h2
      · exact Or.inr ⟨x, List.mem_cons_self _ _, h2⟩
      · exact Or.inl h2
    · rcases mem_joinWith_elim h1 with h2 | ⟨p, hp, hc⟩
      · exact Or.inl h2
      · exact Or.inr ⟨p, List.mem_cons_of_mem _ hp, hc⟩

/-- The marker written by the composer decomposes around the bare marker the
extractor splits on. -/
theorem srcMarkerNl_decomp :
    srcMarkerNl = strL "\n\n" ++ srcMarker ++ strL "\n" := by decide

/-- Splitting behaviour of `extractSources` on a text of the shape
`main ++ "**Sources:**" ++ block` with no asterisk in `main` or `block`:
the prefix is stripped into the main text and the block's lines starting
with `-` are parsed, none skipped. -/
theorem extractSources_of_shape (main block : List Char)
    (hmain : '*' ∉ main) (hblock : '*' ∉ block) :
    extractSources (main ++ srcMarker ++ block) =
      (pyStrip main,
        (splitChar '\n' (pyStrip block)).filterMap parseDashLine) := by
  have hsp1 : splitFirst srcMarker (main ++ srcMarker ++ block) =
      some (main, block) := by
    rw [show srcMarker = '*' :: strL "*Sources:**" from rfl]
    rw [List.append_assoc]
    rw [splitFirst_append_of_head_not_mem _ hmain]
    rw [show ('*' : Char) :: strL "*Sources:**" = srcMarker from rfl]
    rw [splitFirst_self (by decide) block]
    simp
  have hsp2 : splitFirst srcMarker block = none := by
    rw [show srcMarker = '*' :: strL "*Sources:**" from rfl]
    exact splitFirst_eq_none_of_head_not_mem hblock
  unfold extractSources
  rw [if_pos (by unfold pyContains; rw [hsp1]; rfl)]
  rw [hsp1]
  simp only [hsp2]

/-! ## Claim C8 — the Source Extractor contract (corrected) -/

/-- C8 counterexample.  The claim says every line after the marker beginning
with `-` yields exactly one citation.  With two occurrences of the marker,
`response.split("**Sources:**")[1]` only covers the segment between the
first and second occurrence, so the `- C (D)` line after the second marker
is silently dropped. -/
theorem claim_C8_counterexample :
    extractSources (strL "a" ++ srcMarker ++ strL "\n- A (B)\n" ++ srcMarker
        ++ strL "\n- C (D)") =
      (strL "a", [(strL "A", strL "B")]) ∧
    (strL "C", strL "D") ∉ (extractSources (strL "a" ++ srcMarker ++
        strL "\n- A (B)\n" ++ srcMarker ++ strL "\n- C (D)")).2 := by
  constructor
  · decide
  · decide

/-- C8 amended.  For every input without the marker the extractor returns
the whole text with no sources; and on a text of the shape
`main ++ "**Sources:**" ++ block` (no asterisks in `main` or `block`, so the
marker occurs exactly once) every line of the block that begins with `-`
yields exactly one citation — parsed into `(title, source)` when it contains
`(` and ends with `)`, degraded to `(remainder, "Unknown")` otherwise —
and no such line is dropped. -/
theorem claim_C8_extractor_contract (main block r : List Char)
    (hmain : '*' ∉ main) (hblock : '*' ∉ block)
    (hr : pyContains srcMarker r = false) :
    extractSources r = (r, []) ∧
    extractSources (main ++ srcMarker ++ block) =
      (pyStrip main,
        (splitChar '\n' (pyStrip block)).filterMap parseDashLine) ∧
    (∀ line ∈ splitChar '\n' (pyStrip block),
      (strL "-").isPrefixOf line → (parseDashLine line).isSome = true) := by
  refine ⟨?_, extractSources_of_shape main block hmain hblock, ?_⟩
  · unfold extractSources
    rw [if_neg (by rw [hr]; intro h; cases h)]
  · intro line _ hdash
    simp only [parseDashLine, hdash]
    rw [if_pos trivial]
    split
    · cases rsplitParen (pyStrip (line.drop 1)) with
      | none => rfl
      | some p => obtain ⟨p1, p2⟩ := p; rfl
    · rfl

/-- C8 witness on a concrete two-line block with one parseable and one
degraded citation line. -/
theorem claim_C8_witness :
    extractSources (strL "body" ++ srcMarker ++ strL "\n- A (B)\n- nosrc") =
      (pyStrip (strL "body"),
        (splitChar '\n' (pyStrip (strL "\n- A (B)\n- nosrc"))).filterMap
          parseDashLine) := by
  have h := claim_C8_extractor_contract (strL "body")
    (strL "\n- A (B)\n- nosrc") (strL "x") (by decide) (by decide) (by decide)
  exact h.2.1

/-! ## Strip identities needed for the citation round trip -/

theorem stripL_cons_space {c : Char} (hc : pySpace c = true) (x : List Char) :
    stripL (c :: x) = stripL x := by
  simp [stripL, List.dropWhile_cons, hc]

theorem stripL_cons_nonspace {c : Char} (hc : pySpace c = false)
    (x : List Char) : stripL (c :: x) = c :: x := by
  simp [stripL, List.dropWhile_cons, hc]

theorem stripL_space_run :
    ∀ {w : List Char}, (∀ c ∈ w, pySpace c = true) → ∀ (y : List Char),
      stripL (w ++ y) = stripL y
  | [], _, y => rfl
  | c :: cs, h, y => by
    rw [List.cons_append, stripL_cons_space (h c (List.mem_cons_self c cs))]
    exact stripL_space_run (fun d hd => h d (List.mem_cons_of_mem c hd)) y

theorem pyStrip_rev (l : List Char) :
    pyStrip l = (stripL ((stripL l).reverse)).reverse := rfl

theorem pyStrip_cons_space {c : Char} (hc : pySpace c = true) (x : List Char) :
    pyStrip (c :: x) = pyStrip x := by
  rw [pyStrip_rev, pyStrip_rev, stripL_cons_space hc]

theorem pyStrip_all_space {w : List Char} (h : ∀ c ∈ w, pySpace c = true) :
    pyStrip w = [] := by
  rw [pyStrip_rev]
  rw [show stripL w = stripL (w ++ []) by rw [List.append_nil]]
  rw [stripL_space_run h []]
  rfl

theorem pyStrip_append_space :
    ∀ (x : List Char) {w : List Char}, (∀ c ∈ w, pySpace c = true) →
      pyStrip (x ++ w) = pyStrip x
  | [], w, h => by
    rw [List.nil_append]
    exact pyStrip_all_space h
  | c :: x', w, h => by
    by_cases hc : pySpace c = true
    · rw [List.cons_append, pyStrip_cons_space hc, pyStrip_cons_space hc]
      exact pyStrip_append_space x' h
    · simp only [Bool.not_eq_true] at hc
      rw [List.cons_append, pyStrip_rev, pyStrip_rev,
        stripL_cons_nonspace hc, stripL_cons_nonspace hc]
      rw [show (c :: (x' ++ w)).reverse = w.reverse ++ (x'.reverse ++ [c]) by
        simp]
      rw [stripL_space_run (fun d hd => h d (List.mem_reverse.1 hd))]
      rw [show (c :: x').reverse = x'.reverse ++ [c] by simp]

theorem pyStrip_eq_self {l : List Char} (h1 : headSpace l = false)
    (h2 : headSpace l.reverse = false) : pyStrip l = l := by
  cases l with
  | nil => rfl
  | cons c cs =>
    rw [pyStrip_rev, stripL_cons_nonspace (by simpa [headSpace] using h1)]
    cases hrev : (c :: cs).reverse with
    | nil =>
      exfalso
      have := congrArg List.length hrev
      simp at this
    | cons d ds =>
      rw [hrev] at h2
      rw [stripL_cons_nonspace (by simpa [headSpace] using h2)]
      rw [← hrev, List.reverse_reverse]

theorem length_pyStrip_le (l : List Char) : (pyStrip l).length ≤ l.length := by
  rw [pyStrip_rev]
  calc (stripL ((stripL l).reverse)).reverse.length
      = (stripL ((stripL l).reverse)).length := by rw [List.length_reverse]
    _ ≤ (stripL l).reverse.length := (List.dropWhile_sublist _).length_le
    _ = (stripL l).length := by rw [List.length_reverse]
    _ ≤ l.length := (List.dropWhile_sublist _).length_le

theorem headSpace_false_of_pyStrip_self {l : List Char} (h : pyStrip l = l) :
    headSpace l = false := by
  cases l with
  | nil => rfl
  | cons c cs =>
    by_cases hc : pySpace c = true
    · exfalso
      have h1 : pyStrip (c :: cs) = pyStrip cs := pyStrip_cons_space hc cs
      have h2 := length_pyStrip_le cs
      rw [h] at h1
      have := congrArg List.length h1
      simp only [List.length_cons] at this
      omega
    · simp only [Bool.not_eq_true] at hc
      simpa [headSpace] using hc

theorem revHeadSpace_false_of_pyStrip_self {l : List Char}
    (h : pyStrip l = l) : headSpace l.reverse = false := by
  cases hrev : l.reverse with
  | nil => rfl
  | cons d ds =>
    by_cases hd : pySpace d = true
    · exfalso
      have hl : l = ds.reverse ++ [d] := by
        rw [← List.reverse_reverse l, hrev]
        simp
      have h1 : pyStrip l = pyStrip ds.reverse := by
        rw [hl]
        exact pyStrip_append_space ds.reverse
          (by intro x hx
              rcases List.mem_cons.1 hx with h2 | h2
              · subst h2; exact hd
              · cases h2)
      rw [h] at h1
      have := congrArg List.length h1
      have h2 := length_pyStrip_le ds.reverse
      rw [hl] at this
      simp only [List.length_append, List.length_reverse,
        List.length_singleton] at this
      rw [List.length_reverse] at h2
      omega
    · simp only [Bool.not_eq_true] at hd
      simpa [headSpace] using hd

/-! ## Line joining and splitting round trip -/

theorem splitCharGo_no_sep {sep : Char} :
    ∀ {l : List Char} (cur : List Char), sep ∉ l →
      splitCharGo sep cur l = [cur.reverse ++ l]
  | [], cur, _ => by simp [splitCharGo]
  | c :: cs, cur, h => by
    rw [show splitCharGo sep cur (c :: cs) =
      (if c = sep then cur.reverse :: splitCharGo sep [] cs
       else splitCharGo sep (c :: cur) cs) from rfl]
    rw [if_neg (by intro hc; subst hc; exact h (List.mem_cons_self _ _))]
    rw [splitCharGo_no_sep (c :: cur) (fun hm => h (List.mem_cons_of_mem c hm))]
    simp

theorem splitCharGo_append_sep {sep : Char} :
    ∀ {x : List Char} (cur rest : List Char), sep ∉ x →
      splitCharGo sep cur (x ++ sep :: rest) =
        (cur.reverse ++ x) :: splitCharGo sep [] rest
  | [], cur, rest, _ => by
    rw [List.nil_append]
    rw [show splitCharGo sep cur (sep :: rest) =
      (if sep = sep then cur.reverse :: splitCharGo sep [] rest
       else splitCharGo sep (sep :: cur) rest) from rfl]
    rw [if_pos rfl, List.append_nil]
  | c :: cs, cur, rest, h => by
    rw [List.cons_append]
    rw [show splitCharGo sep cur (c :: (cs ++ sep :: rest)) =
      (if c = sep then cur.reverse :: splitCharGo sep [] (cs ++ sep :: rest)
       else splitCharGo sep (c :: cur) (cs ++ sep :: rest)) from rfl]
    rw [if_neg (by intro hc; subst hc; exact h (List.mem_cons_self _ _))]
    rw [splitCharGo_append_sep (c :: cur) rest
      (fun hm => h (List.mem_cons_of_mem c hm))]
    simp

theorem splitChar_joinWith {sep : Char} :
    ∀ {parts : List (List Char)}, parts ≠ [] →
      (∀ p ∈ parts, sep ∉ p) →
      splitChar sep (joinWith [sep] parts) = parts
  | [], h, _ => absurd rfl h
  | [x], _, hp => by
    unfold splitChar
    rw [show joinWith [sep] [x] = x from rfl]
    rw [splitCharGo_no_sep [] (hp x (List.mem_cons_self _ _))]
    rfl
  | x :: y :: t, _, hp => by
    unfold splitChar
    rw [show joinWith [sep] (x :: y :: t) =
      x ++ [sep] ++ joinWith [sep] (y :: t) from rfl]
    rw [List.append_assoc, List.singleton_append]
    rw [splitCharGo_append_sep [] _ (hp x (List.mem_cons_self _ _))]
    rw [List.reverse_nil, List.nil_append]
    have ih := splitChar_joinWith (List.cons_ne_nil y t)
      (fun p hm => hp p (List.mem_cons_of_mem x hm))
    unfold splitChar at ih
    rw [ih]

/-! ## Last-parenthesis splitting -/

theorem rsplitParen_eq_none :
    ∀ {l : List Char}, '(' ∉ l → rsplitParen l = none
  | [], _ => rfl
  | c :: cs, h => by
    rw [show rsplitParen (c :: cs) =
      (match rsplitParen cs with
       | some (a, b) => some (c :: a, b)
       | none => if c = '(' then some ([], cs) else none) from rfl]
    rw [rsplitParen_eq_none (fun hm => h (List.mem_cons_of_mem c hm))]
    exact if_neg (by intro hc; subst hc; exact h (List.mem_cons_self _ _))

theorem rsplitParen_last {b : List Char} (hb : '(' ∉ b) :
    ∀ (a : List Char), rsplitParen (a ++ '(' :: b) = some (a, b)
  | [] => by
    rw [List.nil_append]
    rw [show rsplitParen ('(' :: b) =
      (match rsplitParen b with
       | some (p, q) => some ('(' :: p, q)
       | none => if '(' = '(' then some ([], b) else none) from rfl]
    rw [rsplitParen_eq_none hb]
    rw [if_pos rfl]
  | c :: cs => by
    rw [List.cons_append]
    rw [show rsplitParen (c :: (cs ++ '(' :: b)) =
      (match rsplitParen (cs ++ '(' :: b) with
       | some (p, q) => some (c :: p, q)
       | none => if c = '(' then some ([], cs ++ '(' :: b) else none)
      from rfl]
    rw [rsplitParen_last hb cs]

/-! ## Head and last characters through appends and joins -/

theorem headSpace_append_left {x : List Char} (h : x ≠ []) (y : List Char) :
    headSpace (x ++ y) = headSpace x := by
  cases x with
  | nil => exact absurd rfl h
  | cons c cs => rfl

theorem joinWith_ne_nil {sep : List Char} :
    ∀ {parts : List (List Char)}, parts ≠ [] → (∀ p ∈ parts, p ≠ []) →
      joinWith sep parts ≠ []
  | [], h, _ => absurd rfl h
  | [x], _, hp => by
    rw [show joinWith sep [x] = x from rfl]
    exact hp x (List.mem_cons_self _ _)
  | x :: y :: t, _, hp => by
    rw [show joinWith sep (x :: y :: t) =
      x ++ sep ++ joinWith sep (y :: t) from rfl]
    intro hc
    rcases List.append_eq_nil.1 (List.append_eq_nil.1 hc).1 with ⟨hx, _⟩
    exact hp x (List.mem_cons_self _ _) hx

theorem headSpace_joinWith {sep : List Char} {parts : List (List Char)}
    (hne : parts ≠ []) (hp : ∀ p ∈ parts, p ≠ [])
    (hh : ∀ p ∈ parts, headSpace p = false) :
    headSpace (joinWith sep parts) = false := by
  cases parts with
  | nil => exact absurd rfl hne
  | cons x rest =>
    cases rest with
    | nil =>
      rw [show joinWith sep [x] = x from rfl]
      exact hh x (List.mem_cons_self _ _)
    | cons y t =>
      rw [show joinWith sep (x :: y :: t) =
        x ++ sep ++ joinWith sep (y :: t) from rfl]
      rw [List.append_assoc,
        headSpace_append_left (hp x (List.mem_cons_self _ _))]
      exact hh x (List.mem_cons_self _ _)

theorem revHeadSpace_joinWith {sep : List Char} :
    ∀ {parts : List (List Char)}, parts ≠ [] → (∀ p ∈ parts, p ≠ []) →
      (∀ p ∈ parts, headSpace p.reverse = false) →
      headSpace (joinWith sep parts).reverse = false
  | [], h, _, _ => absurd rfl h
  | [x], _, _, hh => by
    rw [show joinWith sep [x] = x from rfl]
    exact hh x (List.mem_cons_self _ _)
  | x :: y :: t, _, hp, hh => by
    rw [show joinWith sep (x :: y :: t) =
      x ++ sep ++ joinWith sep (y :: t) from rfl]
    rw [List.reverse_append]
    rw [headSpace_append_left]
    · exact revHeadSpace_joinWith (List.cons_ne_nil y t)
        (fun p hm => hp p (List.mem_cons_of_mem x hm))
        (fun p hm => hh p (List.mem_cons_of_mem x hm))
    · intro hc
      rw [List.reverse_eq_nil_iff] at hc
      exact joinWith_ne_nil (List.cons_ne_nil y t)
        (fun p hm => hp p (List.mem_cons_of_mem x hm)) hc

/-! ## Citation lines and pairs -/

/-- The citation line a web item contributes, when it has title and source
(`llm_response.py` lines 157–158). -/
def webLineOf (d : WebItem) : Option (List Char) :=
  if d.title.isSome ∧ d.source.isSome then
    some (strL "- " ++ d.title.getD (strL "Unknown") ++ strL " (" ++
      d.source.getD (strL "Web") ++ strL ")")
  else none

/-- The citation line a database item contributes, when it has a title
(`llm_response.py` lines 168–169). -/
def dbLineOf (e : DbItem) : Option (List Char) :=
  if e.title.isSome then
    some (strL "- " ++ e.title.getD (strL "Database record"))
  else none

/-- The `(title, source)` pair a web item's citation line denotes. -/
def webPairOf (d : WebItem) : Option (List Char × List Char) :=
  if d.title.isSome ∧ d.source.isSome then
    some (d.title.getD (strL "Unknown"), d.source.getD (strL "Web"))
  else none

/-- The `(title, source)` pair a database item's citation line denotes: the
composer writes no parenthesised source, so the extractor's degraded source
is `"Unknown"`. -/
def dbPairOf (e : DbItem) : Option (List Char × List Char) :=
  if e.title.isSome then
    some (e.title.getD (strL "Database record"), strL "Unknown")
  else none

/-- The citation list the spec attributes to a composed response. -/
def composedPairs (web : List WebItem) (db : List DbItem) :
    List (List Char × List Char) :=
  web.filterMap webPairOf ++ (db.take 3).filterMap dbPairOf

theorem foldl_webSourceStep :
    ∀ (web : List WebItem) (acc : List (List Char)),
      web.foldl webSourceStep acc = acc ++ web.filterMap webLineOf
  | [], acc => by simp
  | d :: ds, acc => by
    rw [List.foldl_cons, foldl_webSourceStep ds, List.filterMap_cons]
    unfold webSourceStep webLineOf
    by_cases h : d.title.isSome ∧ d.source.isSome
    · rw [if_pos h, if_pos h, List.append_assoc]
      rfl
    · rw [if_neg h, if_neg h]

theorem foldl_dbSourceStep :
    ∀ (db : List DbItem) (acc : List (List Char)),
      db.foldl dbSourceStep acc = acc ++ db.filterMap dbLineOf
  | [], acc => by simp
  | e :: es, acc => by
    rw [List.foldl_cons, foldl_dbSourceStep es, List.filterMap_cons]
    unfold dbSourceStep dbLineOf
    by_cases h : e.title.isSome
    · rw [if_pos h, if_pos h, List.append_assoc]
      rfl
    · rw [if_neg h, if_neg h]

theorem buildSources_eq (web : List WebItem) (db : List DbItem) :
    buildSources web db =
      web.filterMap webLineOf ++ (db.take 3).filterMap dbLineOf := by
  unfold buildSources
  by_cases h : db = []
  · subst h
    simp [foldl_webSourceStep]
  · rw [if_pos h, foldl_dbSourceStep, foldl_webSourceStep, List.nil_append]

/-! ## Cleanliness of citation fields -/

/-- A title survives the extractor's line handling: non-empty, already
stripped, on one line, and free of the marker character. -/
def CleanTitle (t : List Char) : Prop :=
  t ≠ [] ∧ pyStrip t = t ∧ '\n' ∉ t ∧ '*' ∉ t

/-- A source survives the extractor's last-parenthesis split: already
stripped, on one line, free of the marker character and of `(`. -/
def CleanSource (s : List Char) : Prop :=
  pyStrip s = s ∧ '\n' ∉ s ∧ '*' ∉ s ∧ '(' ∉ s

instance (t : List Char) : Decidable (CleanTitle t) := by
  unfold CleanTitle
  infer_instance

instance (s : List Char) : Decidable (CleanSource s) := by
  unfold CleanSource
  infer_instance

theorem isSuffixOf_concat {c : Char} (x : List Char) :
    ([c] : List Char).isSuffixOf (x ++ [c]) = true := by
  unfold List.isSuffixOf
  simp [List.isPrefixOf]

theorem parseDashLine_web {t s : List Char} (ht : CleanTitle t)
    (hs : CleanSource s) :
    parseDashLine (strL "- " ++ t ++ strL " (" ++ s ++ strL ")") =
      some (t, s) := by
  obtain ⟨htne, htst, _, _⟩ := ht
  obtain ⟨hsst, _, _, hsp⟩ := hs
  have hline : strL "- " ++ t ++ strL " (" ++ s ++ strL ")" =
      '-' :: ' ' :: (t ++ (' ' :: '(' :: (s ++ [')']))) := by
    simp [strL]
  have hhead : headSpace t = false := headSpace_false_of_pyStrip_self htst
  have hst : pyStrip (' ' :: (t ++ (' ' :: '(' :: (s ++ [')'])))) =
      t ++ (' ' :: '(' :: (s ++ [')'])) := by
    rw [pyStrip_cons_space (by decide)]
    refine pyStrip_eq_self ?_ ?_
    · rw [headSpace_append_left htne]
      exact hhead
    · rw [show t ++ (' ' :: '(' :: (s ++ [')'])) =
        (t ++ (' ' :: '(' :: s)) ++ [')'] by simp]
      rw [List.reverse_append]
      rfl
  have hdecomp : t ++ (' ' :: '(' :: (s ++ [')'])) =
      (t ++ [' ']) ++ '(' :: (s ++ [')']) := by simp
  unfold parseDashLine
  rw [hline]
  rw [if_pos (by simp [strL, List.isPrefixOf])]
  simp only [List.drop_succ_cons, List.drop_zero, hst]
  have hcont : pyContains (strL "(") (t ++ (' ' :: '(' :: (s ++ [')']))) =
      true := by
    rw [show t ++ (' ' :: '(' :: (s ++ [')'])) =
      (t ++ [' ']) ++ strL "(" ++ (s ++ [')']) by simp [strL]]
    exact pyContains_of_occurrence _ _ _
  have hsuf : (strL ")").isSuffixOf (t ++ (' ' :: '(' :: (s ++ [')']))) =
      true := by
    rw [show t ++ (' ' :: '(' :: (s ++ [')'])) =
      (t ++ (' ' :: '(' :: s)) ++ [')'] by simp]
    exact isSuffixOf_concat _
  rw [if_pos ⟨hcont, hsuf⟩]
  rw [hdecomp, rsplitParen_last (by
    intro hm
    rcases List.mem_append.1 hm with h1 | h1
    · exact hsp h1
    · simp at h1) (t ++ [' '])]
  show some (pyStrip (t ++ [' ']), pyStrip ((s ++ [')']).dropLast)) =
    some (t, s)
  rw [show (s ++ [')']).dropLast = s by simp]
  rw [pyStrip_append_space t (by intro c hc; simp at hc; subst hc; decide)]
  rw [htst, hsst]

theorem parseDashLine_db {t : List Char} (ht : CleanTitle t)
    (hp : '(' ∉ t) :
    parseDashLine (strL "- " ++ t) = some (t, strL "Unknown") := by
  obtain ⟨htne, htst, _, _⟩ := ht
  have hline : strL "- " ++ t = '-' :: ' ' :: t := by simp [strL]
  unfold parseDashLine
  rw [hline]
  rw [if_pos (by simp [strL, List.isPrefixOf])]
  simp only [List.drop_succ_cons, List.drop_zero]
  rw [pyStrip_cons_space (by decide), htst]
  rw [if_neg (by
    intro hand
    rw [show strL "(" = ['('] from rfl] at hand
    rw [pyContains_eq_false_of_head_not_mem hp] at hand
    exact Bool.false_ne_true hand.1)]

theorem not_mem_append {c : Char} {x y : List Char} (hx : c ∉ x)
    (hy : c ∉ y) : c ∉ x ++ y :=
  fun hm => (List.mem_append.1 hm).elim hx hy

/-- Every citation line the composer emits, under clean titles and sources,
is non-empty, starts and ends with non-whitespace, and contains neither a
newline nor an asterisk. -/
theorem buildSources_line_props {web : List WebItem} {db : List DbItem}
    (hw : ∀ d ∈ web, d.title.isSome ∧ d.source.isSome →
      CleanTitle (d.title.getD (strL "Unknown")) ∧
      CleanSource (d.source.getD (strL "Web")))
    (hd : ∀ e ∈ db.take 3, e.title.isSome →
      CleanTitle (e.title.getD (strL "Database record"))) :
    ∀ line ∈ buildSources web db,
      line ≠ [] ∧ headSpace line = false ∧ headSpace line.reverse = false ∧
      '\n' ∉ line ∧ '*' ∉ line := by
  intro line hm
  rw [buildSources_eq] at hm
  rcases List.mem_append.1 hm with hm1 | hm1
  · obtain ⟨d, hdm, hds⟩ := List.mem_filterMap.1 hm1
    unfold webLineOf at hds
    by_cases hg : d.title.isSome ∧ d.source.isSome
    · rw [if_pos hg, Option.some.injEq] at hds
      obtain ⟨⟨htne, htst, htnl, htstar⟩, ⟨hsst, hsnl, hsstar, _⟩⟩ :=
        hw d hdm hg
      subst hds
      refine ⟨?_, ?_, ?_, ?_, ?_⟩
      · rw [show strL "- " ++ d.title.getD (strL "Unknown") ++ strL " (" ++
          d.source.getD (strL "Web") ++ strL ")" =
          '-' :: (' ' :: (d.title.getD (strL "Unknown") ++ (strL " (" ++
          (d.source.getD (strL "Web") ++ strL ")")))) by simp [strL]]
        exact List.cons_ne_nil _ _
      · rw [show strL "- " ++ d.title.getD (strL "Unknown") ++ strL " (" ++
          d.source.getD (strL "Web") ++ strL ")" =
          '-' :: (' ' :: (d.title.getD (strL "Unknown") ++ (strL " (" ++
          (d.source.getD (strL "Web") ++ strL ")")))) by simp [strL]]
        rfl
      · rw [show strL "- " ++ d.title.getD (strL "Unknown") ++ strL " (" ++
          d.source.getD (strL "Web") ++ strL ")" =
          (strL "- " ++ d.title.getD (strL "Unknown") ++ strL " (" ++
          d.source.getD (strL "Web")) ++ [')'] by simp [strL]]
        rw [List.reverse_append]
        rfl
      · exact not_mem_append (not_mem_append (not_mem_append
          (not_mem_append (by decide) htnl) (by decide)) hsnl) (by decide)
      · exact not_mem_append (not_mem_append (not_mem_append
          (not_mem_append (by decide) htstar) (by decide)) hsstar) (by decide)
    · rw [if_neg hg] at hds
      cases hds
  · obtain ⟨e, hem, hes⟩ := List.mem_filterMap.1 hm1
    unfold dbLineOf at hes
    by_cases hg : e.title.isSome
    · rw [if_pos hg, Option.some.injEq] at hes
      obtain ⟨htne, htst, htnl, htstar⟩ := hd e hem hg
      subst hes
      refine ⟨?_, ?_, ?_, ?_, ?_⟩
      · rw [show strL "- " ++ e.title.getD (strL "Database record") =
          '-' :: (' ' :: e.title.getD (strL "Database record"))
          by simp [strL]]
        exact List.cons_ne_nil _ _
      · rw [show strL "- " ++ e.title.getD (strL "Database record") =
          '-' :: (' ' :: e.title.getD (strL "Database record"))
          by simp [strL]]
        rfl
      · rw [List.reverse_append]
        rw [headSpace_append_left (by
          intro hc
          rw [List.reverse_eq_nil_iff] at hc
          exact htne hc)]
        exact revHeadSpace_false_of_pyStrip_self htst
      · exact not_mem_append (by decide) htnl
      · exact not_mem_append (by decide) htstar
    · rw [if_neg hg] at hes
      cases hes

/-! ## Claim C1 — the citation round trip (corrected) -/

/-- C1 counterexample.  The claim promises the extractor returns exactly
the composer's citation list for every composed response.  A web item whose
source itself contains `(` breaks the extractor's last-parenthesis split:
composing title `T` with source `A(B` and extracting yields the pair
`("T (A", "B")`, not `("T", "A(B")`. -/
theorem claim_C1_counterexample :
    (extractSources (attachSources (strL "Body.")
        (buildSources [⟨some (strL "T"), some (strL "A(B"), none, none⟩] []))).2
      = [(strL "T (A", strL "B")] ∧
    (extractSources (attachSources (strL "Body.")
        (buildSources [⟨some (strL "T"), some (strL "A(B"), none, none⟩] []))).2
      ≠ composedPairs [⟨some (strL "T"), some (strL "A(B"), none, none⟩] [] := by
  constructor
  · decide
  · decide

/-- C1 amended.  Citation round trip for the composed response
`attachSources body (buildSources web db)` (`llm_response.py` lines 148–169
and 214–216) under cleanliness conditions: the body carries no asterisk, each
cited web item's title and source are non-empty/stripped/one-line with the
source free of `(`, each cited database title likewise free of `(`, and the
citation list is non-empty.  Then the `/crisis/query` extractor recovers the
stripped body and exactly the composed `(title, source)` list, in order,
with database items degraded to source `"Unknown"`. -/
theorem claim_C1_citation_round_trip (body : List Char)
    (web : List WebItem) (db : List DbItem)
    (hbody : '*' ∉ body)
    (hw : ∀ d ∈ web, d.title.isSome ∧ d.source.isSome →
      CleanTitle (d.title.getD (strL "Unknown")) ∧
      CleanSource (d.source.getD (strL "Web")))
    (hd : ∀ e ∈ db.take 3, e.title.isSome →
      CleanTitle (e.title.getD (strL "Database record")) ∧
      '(' ∉ e.title.getD (strL "Database record"))
    (hne : buildSources web db ≠ []) :
    extractSources (attachSources body (buildSources web db)) =
      (pyStrip body, composedPairs web db) := by
  have hprops := buildSources_line_props hw
    (fun e hem hg => (hd e hem hg).1)
  unfold attachSources
  rw [if_pos hne]
  rw [show body ++ srcMarkerNl ++ joinWith (strL "\n") (buildSources web db) =
    (body ++ strL "\n\n") ++ srcMarker ++
      ('\n' :: joinWith (strL "\n") (buildSources web db)) by
    rw [srcMarkerNl_decomp]; simp [strL]]
  rw [extractSources_of_shape (body ++ strL "\n\n")
    ('\n' :: joinWith (strL "\n") (buildSources web db))
    (not_mem_append hbody (by decide))
    (by
      intro hmem
      rcases List.mem_cons.1 hmem with hc | hc
      · cases hc
      · rcases mem_joinWith_elim hc with hc2 | ⟨p, hp, hc2⟩
        · revert hc2; decide
        · exact (hprops p hp).2.2.2.2 hc2)]
  rw [pyStrip_append_space body (by
    intro c hc
    have : c = '\n' := by
      rcases List.mem_cons.1 hc with h1 | h1
      · exact h1
      · rcases List.mem_cons.1 h1 with h2 | h2
        · exact h2
        · cases h2
    subst this
    decide)]
  rw [pyStrip_cons_space (by decide)]
  rw [pyStrip_eq_self
    (headSpace_joinWith hne (fun p hp => (hprops p hp).1)
      (fun p hp => (hprops p hp).2.1))
    (revHeadSpace_joinWith hne (fun p hp => (hprops p hp).1)
      (fun p hp => (hprops p hp).2.2.1))]
  rw [show strL "\n" = ['\n'] from rfl]
  rw [splitChar_joinWith hne (fun p hp => (hprops p hp).2.2.2.1)]
  rw [buildSources_eq, List.filterMap_append]
  unfold composedPairs
  rw [List.filterMap_filterMap, List.filterMap_filterMap]
  have hwcongr : web.filterMap (fun d => (webLineOf d).bind parseDashLine) =
      web.filterMap webPairOf := by
    refine List.filterMap_congr ?_
    intro d hdm
    show (webLineOf d).bind parseDashLine = webPairOf d
    unfold webLineOf webPairOf
    by_cases hg : d.title.isSome ∧ d.source.isSome
    · rw [if_pos hg, if_pos hg, Option.some_bind]
      exact parseDashLine_web (hw d hdm hg).1 (hw d hdm hg).2
    · rw [if_neg hg, if_neg hg]
      rfl
  have hdcongr : (db.take 3).filterMap
      (fun e => (dbLineOf e).bind parseDashLine) =
      (db.take 3).filterMap dbPairOf := by
    refine List.filterMap_congr ?_
    intro e hem
    show (dbLineOf e).bind parseDashLine = dbPairOf e
    unfold dbLineOf dbPairOf
    by_cases hg : e.title.isSome
    · rw [if_pos hg, if_pos hg, Option.some_bind]
      exact parseDashLine_db (hd e hem hg).1 (hd e hem hg).2
    · rw [if_neg hg, if_neg hg]
      rfl
  rw [hwcongr, hdcongr]

/-- C1 witness: one clean web item and one clean database item round-trip
through composition and extraction. -/
theorem claim_C1_witness :
    extractSources (attachSources (strL "Body.")
      (buildSources [⟨some (strL "T"), some (strL "S"), none, none⟩]
        [⟨some (strL "D"), none, none, none, none, none⟩])) =
    (pyStrip (strL "Body."),
      composedPairs [⟨some (strL "T"), some (strL "S"), none, none⟩]
        [⟨some (strL "D"), none, none, none, none, none⟩]) :=
  claim_C1_citation_round_trip (strL "Body.")
    [⟨some (strL "T"), some (strL "S"), none, none⟩]
    [⟨some (strL "D"), none, none, none, none, none⟩]
    (by decide) (by decide) (by decide) (by decide)

/-- A collaborator whose web-scraper retry finds nothing. -/
def c5w : Collab :=
  { scrapeK := fun _ => .ok [], embedQ := .ok [], db := sDbSample,
    connectRaises := false, modelLoadOk := true,
    genFn := fun p => .ok (p ++ strL "A."), sumLoadOk := false,
    sumFn := fun _ => .error () }

/-- C5 witness: with empty evidence and a fruitless retry the canned
no-information response comes back. -/
theorem claim_C5_witness :
    generateResponse c5w (strL "q") [] [] = cannedNoInfo (strL "q") ∧
      generateResponse c5w (strL "q") [] [] ≠ [] ∧
      pyContains (strL "q") (generateResponse c5w (strL "q") [] []) = true ∧
      ('*' ∉ strL "q" →
        pyContains srcMarker (generateResponse c5w (strL "q") [] []) = false) :=
  claim_C5_empty_evidence c5w (strL "q") (Or.inl rfl)
